import Mathlib

set_option maxHeartbeats 1000000

/-!
Verification of the RHF (record/heap file) layer of the database_project
repository, a slotted-page record manager (src/pflayer/rhf.c, rhf.h) built
on top of a paged-file layer (pf.h).  The PF implementation itself is not
part of the sources; its page-fix contract is modelled from the spec:
`PF_GetThisPage`/`PF_GetNextPage` return the stored page content and pin it,
`PF_UnfixPage` unpins with a dirty hint, `PF_AllocPage` appends a zeroed
page pinned once.  Pin accounting is recorded as an explicit event trace.
C `int` values are embedded as `Int`; the 4096 data bytes of a page are a
total function from byte offset to byte value; the slot array is a list
whose length tracks `numSlots` in reachable states.
-/

namespace DB

/-- PF_PAGE_SIZE from pf.h: a page is 4096 bytes. -/
def PF_PAGE_SIZE : Int := 4096

/-- RHF_OK error code (rhf.h). -/
def RHF_OK : Int := 0
/-- RHF_EOF error code (rhf.h). -/
def RHF_EOF : Int := -20
/-- RHF_INVALIDRID error code (rhf.h). -/
def RHF_INVALIDRID : Int := -22
/-- RHF_NORECORD error code (rhf.h). -/
def RHF_NORECORD : Int := -23
/-- PFE_OK error code (pf.h). -/
def PFE_OK : Int := 0
/-- PFE_EOF error code (pf.h). -/
def PFE_EOF : Int := -14
/-- PFE_INVALIDPAGE error code (pf.h). -/
def PFE_INVALIDPAGE : Int := -10

/-- sizeof(RHF_PageHeader): three 4-byte ints (rhf.h). -/
def sizeofHeader : Int := 12
/-- sizeof(RHF_Slot): two 4-byte ints (rhf.h). -/
def sizeofSlot : Int := 8

/-- RID from rhf.h: (pageNum, slotNum). -/
structure RID where
  pageNum : Int
  slotNum : Int
deriving DecidableEq, Repr

/-- RHF_Slot from rhf.h: one entry of the slot array. -/
structure RHF_Slot where
  recordOffset : Int
  recordLength : Int
deriving DecidableEq, Repr

/-- RHF_PageHeader from rhf.h: metadata at the start of every page. -/
structure RHF_PageHeader where
  numSlots : Int
  freeSpacePtr : Int
  nextFreeSlot : Int
deriving DecidableEq, Repr

/-- A slotted page: header, slot array, and the raw data bytes addressed
by offset.  The slot array list mirrors the region after the header; in
every state reachable by RHF operations its length equals `numSlots`. -/
structure Page where
  header : RHF_PageHeader
  slots : List RHF_Slot
  data : Int → Int

/-- The all-zero page, as delivered by PF_AllocPage (modelled from the
spec: a newly allocated page's data is defined as zeroed). -/
def zeroPage : Page :=
  { header := ⟨0, 0, 0⟩, slots := [], data := fun _ => 0 }

/-- readBytes d off len: the len bytes starting at offset off. -/
def readBytes (d : Int → Int) (off len : Int) : List Int :=
  (List.range len.toNat).map (fun (i : Nat) => d (off + (i : Int)))

/-- copyBytes d off src len: memcpy of len bytes of src to offset off. -/
def copyBytes (d : Int → Int) (off : Int) (src : List Int) (len : Int) :
    Int → Int :=
  fun x => if off ≤ x ∧ x < off + len then src.getD (x - off).toNat 0 else d x

/-- Pin-accounting events for the PF fix/unfix calls an RHF operation
performs, in program order (modelled from the spec: fix and alloc pin the
page, unfix unpins it and ors in the dirty hint). -/
inductive PFEvent where
  | fix : Int → PFEvent
  | unfix : Int → Bool → PFEvent
  | alloc : Int → PFEvent
deriving DecidableEq, Repr

/-- Contribution of one event to the pin count of page p. -/
def pinDelta (p : Int) : PFEvent → Int
  | .fix q => if q = p then 1 else 0
  | .alloc q => if q = p then 1 else 0
  | .unfix q _ => if q = p then -1 else 0

/-- Net pin-count change of a whole event trace on page p. -/
def netPins (evs : List PFEvent) (p : Int) : Int :=
  (evs.map (pinDelta p)).sum

/-- Contribution of one event to the total number of pinned pages. -/
def totalPinDelta : PFEvent → Int
  | .fix _ => 1
  | .alloc _ => 1
  | .unfix _ _ => -1

/-- pinsBounded h evs: starting from h pages held, after every prefix of
evs the number of held pages stays between 0 and 1. -/
def pinsBounded (h : Int) : List PFEvent → Prop
  | [] => True
  | e :: rest =>
      (0 ≤ h + totalPinDelta e ∧ h + totalPinDelta e ≤ 1) ∧
      pinsBounded (h + totalPinDelta e) rest

instance (h : Int) (evs : List PFEvent) : Decidable (pinsBounded h evs) := by
  induction evs generalizing h with
  | nil => exact isTrue trivial
  | cons e rest ih =>
      have := ih (h + totalPinDelta e)
      unfold pinsBounded
      infer_instance

/-- rhf_InitPage from rhf.c: initialize a freshly allocated page as an
empty slotted page. -/
def rhf_InitPage (p : Page) : Page :=
  { p with header := { numSlots := 0, freeSpacePtr := PF_PAGE_SIZE, nextFreeSlot := -1 } }

/-- spaceNeededForSlot from rhf_GetPageWithSpace: a new slot is needed
only when the free-slot chain is empty. -/
def spaceNeededForSlot (p : Page) : Int :=
  if p.header.nextFreeSlot = -1 then sizeofSlot else 0

/-- freeSpace from rhf_GetPageWithSpace: bytes between the end of the
slot array and the start of the record heap. -/
def freeSpace (p : Page) : Int :=
  p.header.freeSpacePtr - (sizeofHeader + p.header.numSlots * sizeofSlot)

/-- The space test of rhf_GetPageWithSpace on one page. -/
def hasSpaceFor (p : Page) (len : Int) : Bool :=
  decide (len + spaceNeededForSlot p ≤ freeSpace p)

/-- The page-scanning loop of rhf_GetPageWithSpace: visit the pages in
fix_next order (ascending page number, modelled from the spec) starting at
index idx, unfixing each page that lacks space, and return the index of
the first page with space together with the fix/unfix events. -/
def rhf_findPage : List Page → Nat → Int → Option Nat × List PFEvent
  | [], _, _ => (none, [])
  | p :: rest, idx, len =>
      if hasSpaceFor p len then (some idx, [.fix (idx : Int)])
      else
        ((rhf_findPage rest (idx + 1) len).1,
         .fix (idx : Int) :: .unfix (idx : Int) false ::
           (rhf_findPage rest (idx + 1) len).2)

/-- rhf_GetPageWithSpace from rhf.c: scan for a page with space; if none,
PF_AllocPage a new page and rhf_InitPage it.  Returns the chosen page
number, the fixed page buffer, the (possibly extended) file, and the PF
events. -/
def rhf_GetPageWithSpace (pages : List Page) (len : Int) :
    Nat × Page × List Page × List PFEvent :=
  match rhf_findPage pages 0 len with
  | (some i, evs) => (i, pages.getD i zeroPage, pages, evs)
  | (none, evs) =>
      let np := rhf_InitPage zeroPage
      (pages.length, np, pages ++ [np], evs ++ [.alloc (pages.length : Int)])

/-- Steps 2-3 of RHF_InsertRecord on the fixed page buffer: pop the free
slot chain or append a new slot, then write the record backward from
freeSpacePtr.  Returns the updated page and the chosen slot number.
The embedding keeps the record heap (data) apart from the header and slot
array, while rhf.c writes one flat PF_PAGE_SIZE-byte buffer whose memcpy
overwrites header and slot bytes whenever freeSpacePtr - len falls below
sizeofHeader + numSlots * sizeofSlot.  The space check of
rhf_GetPageWithSpace rules that out on existing pages; on a freshly
allocated page rhf.c performs no space check at all, and the write stays
inside the record heap exactly when len + sizeofHeader + sizeofSlot ≤
PF_PAGE_SIZE.  The round-trip theorems (C3, C4) therefore hypothesize
that fits-a-page bound, on which this embedding is exact. -/
def rhf_insertIntoPage (p : Page) (record : List Int) (len : Int) :
    Page × Int :=
  if p.header.nextFreeSlot ≠ -1 then
    let slotNum := p.header.nextFreeSlot
    let old := p.slots.getD slotNum.toNat ⟨0, 0⟩
    let fsp := p.header.freeSpacePtr - len
    ({ header := { numSlots := p.header.numSlots, freeSpacePtr := fsp,
                   nextFreeSlot := old.recordOffset },
       slots := p.slots.set slotNum.toNat ⟨fsp, len⟩,
       data := copyBytes p.data fsp record len }, slotNum)
  else
    let slotNum := p.header.numSlots
    let fsp := p.header.freeSpacePtr - len
    ({ header := { numSlots := p.header.numSlots + 1, freeSpacePtr := fsp,
                   nextFreeSlot := p.header.nextFreeSlot },
       slots := p.slots ++ [⟨fsp, len⟩],
       data := copyBytes p.data fsp record len }, slotNum)

/-- Result of RHF_InsertRecord. -/
structure InsertResult where
  status : Int
  rid : RID
  pages : List Page
  events : List PFEvent

/-- RHF_InsertRecord from rhf.c. -/
def RHF_InsertRecord (pages : List Page) (record : List Int) (len : Int) :
    InsertResult :=
  match rhf_GetPageWithSpace pages len with
  | (pnum, pbuf, pages1, evs) =>
      let r := rhf_insertIntoPage pbuf record len
      { status := PFE_OK, rid := ⟨(pnum : Int), r.2⟩,
        pages := pages1.set pnum r.1,
        events := evs ++ [.unfix (pnum : Int) true] }

/-- Result of RHF_GetRecord: error status, and (length, bytes copied to
the caller's buffer) when the success path runs. -/
structure GetResult where
  status : Int
  out : Option (Int × List Int)
  events : List PFEvent

/-- RHF_GetRecord from rhf.c.  PF_GetThisPage (modelled from the spec)
fails with PFE_INVALIDPAGE outside [0, num_pages). -/
def RHF_GetRecord (pages : List Page) (rid : RID) : GetResult :=
  if rid.pageNum < 0 ∨ (pages.length : Int) ≤ rid.pageNum then
    ⟨PFE_INVALIDPAGE, none, []⟩
  else
    let p := pages.getD rid.pageNum.toNat zeroPage
    if rid.slotNum < 0 ∨ p.header.numSlots ≤ rid.slotNum then
      ⟨RHF_INVALIDRID, none, [.fix rid.pageNum, .unfix rid.pageNum false]⟩
    else
      let slot := p.slots.getD rid.slotNum.toNat ⟨0, 0⟩
      if slot.recordOffset = -1 then
        ⟨RHF_NORECORD, none, [.fix rid.pageNum, .unfix rid.pageNum false]⟩
      else
        ⟨PFE_OK,
         some (slot.recordLength,
               readBytes p.data slot.recordOffset slot.recordLength),
         [.fix rid.pageNum, .unfix rid.pageNum false]⟩

/-- Result of RHF_DeleteRecord. -/
structure DeleteResult where
  status : Int
  pages : List Page
  events : List PFEvent

/-- RHF_DeleteRecord from rhf.c: tombstone the slot and push it on the
free-slot chain. -/
def RHF_DeleteRecord (pages : List Page) (rid : RID) : DeleteResult :=
  if rid.pageNum < 0 ∨ (pages.length : Int) ≤ rid.pageNum then
    ⟨PFE_INVALIDPAGE, pages, []⟩
  else
    let p := pages.getD rid.pageNum.toNat zeroPage
    if rid.slotNum < 0 ∨ p.header.numSlots ≤ rid.slotNum then
      ⟨RHF_INVALIDRID, pages, [.fix rid.pageNum, .unfix rid.pageNum false]⟩
    else
      let slot := p.slots.getD rid.slotNum.toNat ⟨0, 0⟩
      if slot.recordOffset = -1 then
        ⟨RHF_NORECORD, pages, [.fix rid.pageNum, .unfix rid.pageNum false]⟩
      else
        let p' : Page :=
          { header := { numSlots := p.header.numSlots,
                        freeSpacePtr := p.header.freeSpacePtr,
                        nextFreeSlot := rid.slotNum },
            slots := p.slots.set rid.slotNum.toNat ⟨p.header.nextFreeSlot, -1⟩,
            data := p.data }
        ⟨PFE_OK, pages.set rid.pageNum.toNat p',
         [.fix rid.pageNum, .unfix rid.pageNum true]⟩

/-- RHF_Scan from rhf.h, without the redundant fd and pageBuf fields:
the page buffer is the fixed page's content. -/
structure RHF_Scan where
  currentPage : Int
  currentSlot : Int
  page_is_fixed : Bool
deriving DecidableEq, Repr

/-- RHF_StartScan from rhf.c: position before the first page, nothing
fixed. -/
def RHF_StartScan : RHF_Scan := ⟨-1, -1, false⟩

/-- PF_GetNextPage's successor computation (modelled from the spec: the
smallest allocated page strictly greater than the input, or eof).  RHF
never disposes pages, so every page number below num_pages is allocated. -/
def pfNextPage (numPages : Nat) (cur : Int) : Option Nat :=
  let n : Int := if cur < 0 then 0 else cur + 1
  if n < (numPages : Int) then some n.toNat else none

/-- The slot-advancing loop of RHF_GetNextRecord within one page, with the
loop's remaining trip count (numSlots - slotIdx, clamped at zero) made an
explicit structural argument: fuel = 0 exactly when slotIdx ≥ numSlots,
the loop's exit test. -/
def rhf_scanPageGo (slots : List RHF_Slot) : Int → Nat → Option (Int × RHF_Slot)
  | _, 0 => none
  | slotIdx, fuel + 1 =>
      let slot := slots.getD slotIdx.toNat ⟨0, 0⟩
      if slot.recordLength ≠ -1 then some (slotIdx, slot)
      else rhf_scanPageGo slots (slotIdx + 1) fuel

/-- The slot-advancing loop of RHF_GetNextRecord within one page: starting
at slotIdx, return the first slot with recordLength ≠ -1 before numSlots,
or none when the page is exhausted. -/
def rhf_scanPage (slots : List RHF_Slot) (numSlots : Int) (slotIdx : Int) :
    Option (Int × RHF_Slot) :=
  rhf_scanPageGo slots slotIdx (numSlots - slotIdx).toNat

/-- Result of one RHF_GetNextRecord call. -/
structure ScanStep where
  status : Int
  out : Option (Int × List Int × RID)
  scan : RHF_Scan
  events : List PFEvent

/-- The page-advancing loop of RHF_GetNextRecord, with the remaining page
count (pages.length - pageIdx) made an explicit structural argument; the
fuel-0 case is unreachable from calls with a fixed (hence valid) page. -/
def scanPagesGo (pages : List Page) : Nat → Int → Nat → ScanStep
  | pageIdx, slotIdx, 0 => ⟨RHF_EOF, none, ⟨(pageIdx : Int), slotIdx, false⟩, []⟩
  | pageIdx, slotIdx, fuel + 1 =>
      let p := pages.getD pageIdx zeroPage
      match rhf_scanPage p.slots p.header.numSlots slotIdx with
      | some (i, slot) =>
          ⟨RHF_OK,
           some (slot.recordLength,
                 readBytes p.data slot.recordOffset slot.recordLength,
                 ⟨(pageIdx : Int), i⟩),
           ⟨(pageIdx : Int), i + 1, true⟩, []⟩
      | none =>
          if pageIdx + 1 < pages.length then
            let r := scanPagesGo pages (pageIdx + 1) 0 fuel
            ⟨r.status, r.out, r.scan,
             .unfix (pageIdx : Int) false :: .fix ((pageIdx : Int) + 1) :: r.events⟩
          else
            ⟨RHF_EOF, none,
             ⟨(pageIdx : Int), max slotIdx p.header.numSlots, false⟩,
             [.unfix (pageIdx : Int) false]⟩

/-- The page-advancing loop of RHF_GetNextRecord: the page at pageIdx is
fixed on entry; exhausted pages are unfixed clean before fetching the
next page, and hitting end of file returns RHF_EOF with nothing fixed. -/
def scanPagesLoop (pages : List Page) (pageIdx : Nat) (slotIdx : Int) :
    ScanStep :=
  scanPagesGo pages pageIdx slotIdx (pages.length - pageIdx)

/-- RHF_GetNextRecord from rhf.c. -/
def RHF_GetNextRecord (pages : List Page) (s : RHF_Scan) : ScanStep :=
  if s.page_is_fixed then
    scanPagesLoop pages s.currentPage.toNat s.currentSlot
  else
    match pfNextPage pages.length s.currentPage with
    | some n =>
        let r := scanPagesLoop pages n 0
        ⟨r.status, r.out, r.scan, .fix (n : Int) :: r.events⟩
    | none => ⟨RHF_EOF, none, s, []⟩

/-- RHF_EndScan from rhf.c: unfix the page if one is still fixed. -/
def RHF_EndScan (s : RHF_Scan) : Int × RHF_Scan × List PFEvent :=
  if s.page_is_fixed then
    (RHF_OK, ⟨s.currentPage, s.currentSlot, false⟩, [.unfix s.currentPage false])
  else
    (RHF_OK, ⟨s.currentPage, s.currentSlot, false⟩, [])

/-! ### List access helper lemmas -/

theorem getD_set_self {α : Type} (l : List α) (i : Nat) (x d : α)
    (h : i < l.length) : (l.set i x).getD i d = x := by
  rw [List.getD_eq_getElem _ _ (by simpa using h)]
  simp [List.getElem_set_self]

theorem getD_set_ne {α : Type} (l : List α) (i j : Nat) (x d : α)
    (h : i ≠ j) : (l.set i x).getD j d = l.getD j d := by
  simp [List.getD_eq_getElem?_getD, List.getElem?_set_ne h]

theorem getD_snoc_length {α : Type} (l : List α) (x d : α) :
    (l ++ [x]).getD l.length d = x := by
  rw [List.getD_append_right _ _ _ _ (le_refl _)]
  simp

/-- heldPins s p: 1 when the scan state s holds page p fixed. -/
def heldPins (s : RHF_Scan) (p : Int) : Int :=
  if s.page_is_fixed ∧ s.currentPage = p then 1 else 0

/-- Events emitted while skipping pages base, base+1, ..., base+n-1: each
is fixed and then unfixed clean. -/
def skipEventsFrom (base n : Nat) : List PFEvent :=
  (List.range n).bind
    (fun j => [.fix ((base + j : Nat) : Int), .unfix ((base + j : Nat) : Int) false])

/-- A client operation on the file: an insert of a byte list (with the C
length argument equal to the list's length) or a delete of a RID. -/
inductive Op where
  | ins : List Int → Op
  | del : RID → Op

/-- Effect of one operation on the file content. -/
def runOp (pages : List Page) : Op → List Page
  | .ins bs => (RHF_InsertRecord pages bs (bs.length : Int)).pages
  | .del rid => (RHF_DeleteRecord pages rid).pages

/-- Effect of a sequence of operations on the file content. -/
def runOps : List Page → List Op → List Page
  | pages, [] => pages
  | pages, op :: ops => runOps (runOp pages op) ops

/-- FreeChain slots h l: following the recordOffset links from head h
yields exactly the distinct in-range slot indices l, all tombstoned
(recordLength = -1), ending at the -1 sentinel.  This is the shape
RHF_DeleteRecord and RHF_InsertRecord maintain for the free-slot chain. -/
inductive FreeChain (slots : List RHF_Slot) : Int → List Nat → Prop where
  | nil : FreeChain slots (-1) []
  | cons {i : Nat} {rest : List Nat} :
      i < slots.length →
      (slots.getD i ⟨0, 0⟩).recordLength = -1 →
      i ∉ rest →
      FreeChain slots (slots.getD i ⟨0, 0⟩).recordOffset rest →
      FreeChain slots ((i : Nat) : Int) (i :: rest)

/-- Well-formedness of a slotted page: the slot list mirrors numSlots and
the free-slot chain is well formed.  Holds for every page reachable by
RHF operations from a fresh file. -/
def PageWF (p : Page) : Prop :=
  ((p.slots.length : Nat) : Int) = p.header.numSlots ∧
  ∃ l, FreeChain p.slots p.header.nextFreeSlot l

/-- The page a RID addresses. -/
def trackedPage (pages : List Page) (r : RID) : Page :=
  pages.getD r.pageNum.toNat zeroPage

/-- The slot a RID addresses. -/
def trackedSlot (pages : List Page) (r : RID) : RHF_Slot :=
  (trackedPage pages r).slots.getD r.slotNum.toNat ⟨0, 0⟩

/-- Tracked pages r bytes: RID r addresses a live record holding bytes,
its page is well formed, and the record's data lies at or above the
page's freeSpacePtr (so later backward-growing inserts cannot touch it). -/
structure Tracked (pages : List Page) (r : RID) (bytes : List Int) : Prop where
  hpg0 : 0 ≤ r.pageNum
  hpg : r.pageNum.toNat < pages.length
  hs0 : 0 ≤ r.slotNum
  hsn : r.slotNum < (trackedPage pages r).header.numSlots
  hslen : ((trackedPage pages r).slots.length : Int) =
    (trackedPage pages r).header.numSlots
  hoff0 : 0 ≤ (trackedSlot pages r).recordOffset
  hfsp : (trackedPage pages r).header.freeSpacePtr ≤ (trackedSlot pages r).recordOffset
  hlen : (trackedSlot pages r).recordLength = (bytes.length : Int)
  hbytes : readBytes (trackedPage pages r).data (trackedSlot pages r).recordOffset
    (bytes.length : Int) = bytes
  hchain : ∃ l, FreeChain (trackedPage pages r).slots
    (trackedPage pages r).header.nextFreeSlot l

/-- A delete is "of another record" relative to the tracked RID r: when it
targets r's page it must address an existing live record other than r
(deleting a record presupposes the record exists; a second delete of an
already-deleted slot is the subject of the C2 sentinel bug, not a delete
of a record). -/
def delOK (pages : List Page) (r rid : RID) : Prop :=
  rid.pageNum = r.pageNum →
    (rid.slotNum ≠ r.slotNum ∧ 0 ≤ rid.slotNum ∧
     rid.slotNum < (trackedPage pages r).header.numSlots ∧
     ((trackedPage pages r).slots.getD rid.slotNum.toNat ⟨0, 0⟩).recordLength ≠ -1)

/-- Validity of one operation relative to the tracked RID r. -/
def opOK (pages : List Page) (r : RID) : Op → Prop
  | .ins bs => (bs.length : Int) + sizeofHeader + sizeofSlot ≤ PF_PAGE_SIZE
  | .del rid => delOK pages r rid

instance (pages : List Page) (r rid : RID) : Decidable (delOK pages r rid) := by
  unfold delOK
  infer_instance

instance (pages : List Page) (r : RID) (op : Op) : Decidable (opOK pages r op) := by
  cases op <;> simp only [opOK] <;> infer_instance

/-- ValidOps r pages ops: starting from pages, every operation in ops is
an insert of a record that fits a page (record plus page header plus one
slot within PF_PAGE_SIZE) or a delete of another (existing) record, state
by state. -/
inductive ValidOps (r : RID) : List Page → List Op → Prop where
  | nil : ∀ {pages}, ValidOps r pages []
  | cons : ∀ {pages op ops}, opOK pages r op →
      ValidOps r (runOp pages op) ops → ValidOps r pages (op :: ops)

/-- Insert each record of a list in turn, collecting the returned RIDs. -/
def runInserts : List Page → List (List Int) → List Page × List RID
  | pages, [] => (pages, [])
  | pages, bs :: rest =>
      ((runInserts (RHF_InsertRecord pages bs (bs.length : Int)).pages rest).1,
       (RHF_InsertRecord pages bs (bs.length : Int)).rid ::
         (runInserts (RHF_InsertRecord pages bs (bs.length : Int)).pages rest).2)

/-- Drive a scan: call RHF_GetNextRecord repeatedly (at most fuel times),
collecting the returned records' bytes; the boolean records whether the
loop ended because RHF_GetNextRecord returned RHF_EOF. -/
def runScan (pages : List Page) : RHF_Scan → Nat → List (List Int) × Bool
  | _, 0 => ([], false)
  | s, fuel + 1 =>
      match (RHF_GetNextRecord pages s).out with
      | some (_, bytes, _) =>
          ((bytes :: (runScan pages (RHF_GetNextRecord pages s).scan fuel).1),
           (runScan pages (RHF_GetNextRecord pages s).scan fuel).2)
      | none => ([], decide ((RHF_GetNextRecord pages s).status = RHF_EOF))

/-- A full scan from RHF_StartScan. -/
def fullScan (pages : List Page) (fuel : Nat) : List (List Int) × Bool :=
  runScan pages RHF_StartScan fuel

/-- Delete each RID of a list in turn. -/
def runDels (pages : List Page) (rids : List RID) : List Page :=
  rids.foldl (fun ps rid => (RHF_DeleteRecord ps rid).pages) pages

/-- pickBy l sel: the elements of l whose matching entry of sel is true. -/
def pickBy {α : Type} : List α → List Bool → List α
  | [], _ => []
  | _ :: _, [] => []
  | a :: l, b :: sel => if b then a :: pickBy l sel else pickBy l sel

/-- The bytes of the live records of one page, in slot order. -/
def liveRecs (p : Page) : List (List Int) :=
  (p.slots.filter (fun s => decide (s.recordLength ≠ -1))).map
    (fun s => readBytes p.data s.recordOffset s.recordLength)

/-- The bytes of all live records of the file, in page-then-slot order. -/
def fileRecs (pages : List Page) : List (List Int) :=
  (pages.map liveRecs).flatten

/-- The bytes of the live records of one page from slot slotIdx on. -/
def pageRecsFrom (p : Page) (slotIdx : Int) : List (List Int) :=
  ((p.slots.drop slotIdx.toNat).filter (fun s => decide (s.recordLength ≠ -1))).map
    (fun s => readBytes p.data s.recordOffset s.recordLength)

/-- The records a scan positioned at (pageIdx, slotIdx) has yet to return. -/
def scanRecsFrom (pages : List Page) (pageIdx : Nat) (slotIdx : Int) :
    List (List Int) :=
  pageRecsFrom (pages.getD pageIdx zeroPage) slotIdx ++
    ((pages.drop (pageIdx + 1)).map liveRecs).flatten

/-- The records a scan in state s has yet to return. -/
def scanStateRecs (pages : List Page) (s : RHF_Scan) : List (List Int) :=
  if s.page_is_fixed then scanRecsFrom pages s.currentPage.toNat s.currentSlot
  else
    match pfNextPage pages.length s.currentPage with
    | some n => scanRecsFrom pages n 0
    | none => []

/-- Well-formedness of a scan state relative to the file. -/
def ScanStateWF (pages : List Page) (s : RHF_Scan) : Prop :=
  s.page_is_fixed = true →
    0 ≤ s.currentPage ∧ s.currentPage < (pages.length : Int) ∧ 0 ≤ s.currentSlot

/-- Page invariant for the scan round-trip: well formed, and every live
slot's record lies at or above freeSpacePtr. -/
def PageInv (p : Page) : Prop :=
  PageWF p ∧
  ∀ i, i < p.slots.length → (p.slots.getD i ⟨0, 0⟩).recordLength ≠ -1 →
    p.header.freeSpacePtr ≤ (p.slots.getD i ⟨0, 0⟩).recordOffset

/-- File invariant: every page satisfies PageInv. -/
def GInv (pages : List Page) : Prop := ∀ p ∈ pages, PageInv p

/-- TrackedAll pages rids recs: each RID tracks the matching record. -/
def TrackedAll (pages : List Page) (rids : List RID) (recs : List (List Int)) :
    Prop :=
  List.Forall₂ (fun rid rec => Tracked pages rid rec) rids recs

/-! ### Concrete scenario shared by the sentinel-bug claims

Starting from an empty file: insert two records on page 0 (slots 0 and 1),
delete slot 0 (the free chain is empty, so its recordOffset becomes -1),
then delete slot 1 (slot 0 is already on the chain, so slot 1's
recordOffset becomes 0, the old chain head). -/

/-- File with records [1,2,3] at RID (0,0) and [4,5] at RID (0,1). -/
def twoRecFile : List Page :=
  (RHF_InsertRecord (RHF_InsertRecord [] [1, 2, 3] 3).pages [4, 5] 2).pages

/-- First delete: RID (0,0), performed while the free chain is empty. -/
def delFirst : DeleteResult := RHF_DeleteRecord twoRecFile ⟨0, 0⟩

/-- Second delete: RID (0,1), performed while slot 0 is on the free chain. -/
def delSecond : DeleteResult := RHF_DeleteRecord delFirst.pages ⟨0, 1⟩

/-- Third delete: RID (0,1) again — a double delete of the same RID with
no intervening insert. -/
def delThird : DeleteResult := RHF_DeleteRecord delSecond.pages ⟨0, 1⟩

/-! ### Lemmas about the page-search loop, events and error paths -/

theorem skipEventsFrom_succ (base n : Nat) :
    skipEventsFrom base (n + 1) =
      .fix (base : Int) :: .unfix (base : Int) false :: skipEventsFrom (base + 1) n := by
  unfold skipEventsFrom
  rw [List.range_succ_eq_map]
  rw [show ((0 :: List.map Nat.succ (List.range n)).bind fun j => [PFEvent.fix ((base + j : Nat) : Int), PFEvent.unfix ((base + j : Nat) : Int) false]) = _ from List.flatMap_cons ..]
  rw [List.flatMap_map]
  have hf : (fun a => [PFEvent.fix ((base + Nat.succ a : Nat) : Int), PFEvent.unfix ((base + Nat.succ a : Nat) : Int) false]) =
      (fun j => [PFEvent.fix ((base + 1 + j : Nat) : Int), PFEvent.unfix ((base + 1 + j : Nat) : Int) false]) := by
    funext j
    rw [show base + Nat.succ j = base + 1 + j by omega]
  rw [hf]
  simp

theorem findPage_some_char :
    ∀ (l : List Page) (base : Nat) (len : Int) (i : Nat),
      (rhf_findPage l base len).1 = some i →
      ∃ k, i = base + k ∧ k < l.length ∧
        hasSpaceFor (l.getD k zeroPage) len = true ∧
        (∀ j, j < k → hasSpaceFor (l.getD j zeroPage) len = false) ∧
        (rhf_findPage l base len).2 = skipEventsFrom base k ++ [.fix (i : Int)]
  | [], base, len, i => by simp [rhf_findPage]
  | p :: rest, base, len, i => by
      intro h
      by_cases hs : hasSpaceFor p len
      · simp only [rhf_findPage, hs, if_true, Option.some.injEq] at h
        subst h
        exact ⟨0, by omega, by simp, by simpa using hs, by omega,
          by simp [rhf_findPage, hs, skipEventsFrom]⟩
      · simp only [rhf_findPage, hs, if_false, Bool.false_eq_true] at h
        obtain ⟨k, hk1, hk2, hk3, hk4, hk5⟩ := findPage_some_char rest (base + 1) len i h
        refine ⟨k + 1, by omega, by simpa using Nat.succ_lt_succ hk2, by simpa using hk3, ?_, ?_⟩
        · intro j hj
          match j with
          | 0 => simpa using hs
          | j + 1 => simpa using hk4 j (by omega)
        · have he : (rhf_findPage (p :: rest) base len).2 =
              PFEvent.fix (base : Int) :: PFEvent.unfix (base : Int) false ::
                (rhf_findPage rest (base + 1) len).2 := by
            simp [rhf_findPage, hs]
          rw [he, hk5, skipEventsFrom_succ]
          simp

theorem findPage_none_char :
    ∀ (l : List Page) (base : Nat) (len : Int),
      (rhf_findPage l base len).1 = none →
      (∀ j, j < l.length → hasSpaceFor (l.getD j zeroPage) len = false) ∧
      (rhf_findPage l base len).2 = skipEventsFrom base l.length
  | [], base, len => by simp [rhf_findPage, skipEventsFrom]
  | p :: rest, base, len => by
      intro h
      by_cases hs : hasSpaceFor p len
      · simp [rhf_findPage, hs] at h
      · simp only [rhf_findPage, hs, if_false, Bool.false_eq_true] at h
        obtain ⟨h1, h2⟩ := findPage_none_char rest (base + 1) len h
        constructor
        · intro j hj
          match j with
          | 0 => simpa using hs
          | j + 1 => simpa using h1 j (by simpa using hj)
        · have he : (rhf_findPage (p :: rest) base len).2 =
              PFEvent.fix (base : Int) :: PFEvent.unfix (base : Int) false ::
                (rhf_findPage rest (base + 1) len).2 := by
            simp [rhf_findPage, hs]
          rw [he, h2, List.length_cons, skipEventsFrom_succ]



theorem netPins_cons (e : PFEvent) (evs : List PFEvent) (p : Int) :
    netPins (e :: evs) p = pinDelta p e + netPins evs p := by
  simp [netPins]

theorem netPins_append (a b : List PFEvent) (p : Int) :
    netPins (a ++ b) p = netPins a p + netPins b p := by
  simp [netPins]

theorem findPage_netPins :
    ∀ (l : List Page) (base : Nat) (len : Int) (p : Int),
      netPins (rhf_findPage l base len).2 p =
        (match (rhf_findPage l base len).1 with
         | some i => if (i : Int) = p then 1 else 0
         | none => 0)
  | [], base, len, p => by simp [rhf_findPage, netPins]
  | q :: rest, base, len, p => by
      by_cases hs : hasSpaceFor q len
      · simp [rhf_findPage, hs, netPins, pinDelta]
      · have ih := findPage_netPins rest (base + 1) len p
        simp only [rhf_findPage, hs, if_false, Bool.false_eq_true]
        rw [netPins_cons, netPins_cons, ih]
        have hz : pinDelta p (.fix ((base : Nat) : Int)) +
            pinDelta p (.unfix ((base : Nat) : Int) false) = 0 := by
          by_cases hbp : ((base : Nat) : Int) = p <;> simp [pinDelta, hbp]
        rw [← add_assoc, hz, zero_add]

theorem getPageWithSpace_lt (pages : List Page) (len : Int) :
    (rhf_GetPageWithSpace pages len).1 < (rhf_GetPageWithSpace pages len).2.2.1.length := by
  rcases hfp : rhf_findPage pages 0 len with ⟨o, evs0⟩
  cases o with
  | some i =>
      obtain ⟨k, hk1, hk2, -, -, -⟩ := findPage_some_char pages 0 len i (by rw [hfp])
      simp [rhf_GetPageWithSpace, hfp]
      omega
  | none => simp [rhf_GetPageWithSpace, hfp]

/-- C5: RHF_InsertRecord of a record of length len places it on the first
page in fix_next order (ascending page number from the start of the file)
whose free space freeSpacePtr - (sizeof(header) + numSlots * sizeof(slot))
is at least len + sizeof(slot) when the page's free-slot chain is empty, or
at least len when a free slot exists (hasSpaceFor); every page with
insufficient space is fixed and unfixed clean before moving on
(skipEventsFrom); if no page qualifies, a new page is allocated and
initialized with numSlots = 0, freeSpacePtr = 4096, nextFreeSlot = -1. -/
theorem C5_insert_first_fit (pages : List Page) (record : List Int) (len : Int)
    (i : Nat) (pbuf : Page) (pages' : List Page) (evs : List PFEvent)
    (hg : rhf_GetPageWithSpace pages len = (i, pbuf, pages', evs)) :
    (∀ j, j < i → hasSpaceFor (pages.getD j zeroPage) len = false) ∧
    (i < pages.length →
       hasSpaceFor (pages.getD i zeroPage) len = true ∧
       pbuf = pages.getD i zeroPage ∧ pages' = pages ∧
       evs = skipEventsFrom 0 i ++ [.fix (i : Int)]) ∧
    (pages.length ≤ i →
       i = pages.length ∧
       pbuf.header = ⟨0, PF_PAGE_SIZE, -1⟩ ∧
       pages' = pages ++ [pbuf] ∧
       evs = skipEventsFrom 0 pages.length ++ [.alloc (pages.length : Int)]) ∧
    (RHF_InsertRecord pages record len).rid.pageNum = (i : Int) := by
  rcases hfp : rhf_findPage pages 0 len with ⟨o, evs0⟩
  cases o with
  | some i0 =>
      obtain ⟨k, hk1, hk2, hk3, hk4, hk5⟩ := findPage_some_char pages 0 len i0 (by rw [hfp])
      have hik : i0 = k := by omega
      subst hik
      have hg' : rhf_GetPageWithSpace pages len = (i0, pages.getD i0 zeroPage, pages, evs0) := by
        simp [rhf_GetPageWithSpace, hfp]
      rw [hg'] at hg
      have h1 : i0 = i := congrArg Prod.fst hg
      subst h1
      have h2 : pages.getD i0 zeroPage = pbuf := congrArg (fun x => x.2.1) hg
      have h3 : pages = pages' := congrArg (fun x => x.2.2.1) hg
      have h4 : evs0 = evs := congrArg (fun x => x.2.2.2) hg
      subst h2
      subst h3
      subst h4
      refine ⟨fun j hj => hk4 j hj, fun _ => ⟨hk3, rfl, rfl, ?_⟩,
        fun hle => absurd hk2 (by omega), ?_⟩
      · rw [show evs0 = (rhf_findPage pages 0 len).2 by rw [hfp], hk5]
      · simp [RHF_InsertRecord, hg']
  | none =>
      obtain ⟨h1, h2⟩ := findPage_none_char pages 0 len (by rw [hfp])
      have hg' : rhf_GetPageWithSpace pages len =
          (pages.length, rhf_InitPage zeroPage, pages ++ [rhf_InitPage zeroPage],
           evs0 ++ [.alloc (pages.length : Int)]) := by
        simp [rhf_GetPageWithSpace, hfp]
      rw [hg'] at hg
      have hi : i = pages.length := (congrArg Prod.fst hg).symm
      have hb : pbuf = rhf_InitPage zeroPage := (congrArg (fun x => x.2.1) hg).symm
      have hp : pages' = pages ++ [rhf_InitPage zeroPage] := (congrArg (fun x => x.2.2.1) hg).symm
      have he : evs = evs0 ++ [.alloc (pages.length : Int)] := (congrArg (fun x => x.2.2.2) hg).symm
      refine ⟨?_, ?_, ?_, ?_⟩
      · intro j hj
        exact h1 j (by omega)
      · intro hlt
        omega
      · intro _
        refine ⟨hi, by rw [hb]; rfl, by rw [hp, hb], ?_⟩
        rw [he]
        have : evs0 = (rhf_findPage pages 0 len).2 := by rw [hfp]
        rw [this, h2]
      · simp [RHF_InsertRecord, hg', hi]



/-- C6: when RHF_InsertRecord targets a page whose nextFreeSlot is not -1,
the returned RID's slot number equals that nextFreeSlot, the new
nextFreeSlot becomes the value stored in that slot's recordOffset field,
and numSlots is unchanged; when nextFreeSlot is -1, the returned slot
number equals the old numSlots and numSlots is incremented by one. -/
theorem C6_insert_slot_choice (pages : List Page) (record : List Int) (len : Int)
    (i : Nat) (pbuf : Page) (pages' : List Page) (evs : List PFEvent)
    (hg : rhf_GetPageWithSpace pages len = (i, pbuf, pages', evs)) :
    (pbuf.header.nextFreeSlot ≠ -1 →
       (RHF_InsertRecord pages record len).rid.slotNum = pbuf.header.nextFreeSlot ∧
       ((RHF_InsertRecord pages record len).pages.getD i zeroPage).header.nextFreeSlot =
         (pbuf.slots.getD pbuf.header.nextFreeSlot.toNat ⟨0, 0⟩).recordOffset ∧
       ((RHF_InsertRecord pages record len).pages.getD i zeroPage).header.numSlots =
         pbuf.header.numSlots) ∧
    (pbuf.header.nextFreeSlot = -1 →
       (RHF_InsertRecord pages record len).rid.slotNum = pbuf.header.numSlots ∧
       ((RHF_InsertRecord pages record len).pages.getD i zeroPage).header.numSlots =
         pbuf.header.numSlots + 1) := by
  have hlt : i < pages'.length := by
    have := getPageWithSpace_lt pages len
    rw [hg] at this
    exact this
  have hres : (RHF_InsertRecord pages record len).pages =
      pages'.set i (rhf_insertIntoPage pbuf record len).1 ∧
      (RHF_InsertRecord pages record len).rid.slotNum =
        (rhf_insertIntoPage pbuf record len).2 := by
    simp [RHF_InsertRecord, hg]
  have hget : (RHF_InsertRecord pages record len).pages.getD i zeroPage =
      (rhf_insertIntoPage pbuf record len).1 := by
    rw [hres.1]
    exact getD_set_self _ _ _ _ (by simpa using hlt)
  constructor
  · intro hnfs
    rw [hget, hres.2]
    simp [rhf_insertIntoPage, hnfs]
  · intro hnfs
    rw [hget, hres.2] at *
    simp [rhf_insertIntoPage, hnfs]

/-- C7: a successful RHF_DeleteRecord on a live record sets the target
slot's recordOffset to the page's previous nextFreeSlot and its
recordLength to -1, sets the header's nextFreeSlot to the target slot
number, and unfixes the page dirty; numSlots, freeSpacePtr, every other
slot, every other page, and all stored record bytes (the page's data
field, including the deleted record's bytes) are unchanged. -/
theorem C7_delete_frame (pages : List Page) (rid : RID)
    (h1 : 0 ≤ rid.pageNum) (h2 : rid.pageNum < (pages.length : Int))
    (h3 : 0 ≤ rid.slotNum)
    (h4 : rid.slotNum < (pages.getD rid.pageNum.toNat zeroPage).header.numSlots)
    (h5 : ((pages.getD rid.pageNum.toNat zeroPage).slots.getD rid.slotNum.toNat
             ⟨0, 0⟩).recordOffset ≠ -1)
    (h6 : ((pages.getD rid.pageNum.toNat zeroPage).slots.length : Int) =
            (pages.getD rid.pageNum.toNat zeroPage).header.numSlots) :
    (RHF_DeleteRecord pages rid).status = RHF_OK ∧
    (((RHF_DeleteRecord pages rid).pages.getD rid.pageNum.toNat zeroPage).slots.getD
        rid.slotNum.toNat ⟨0, 0⟩) =
      ⟨(pages.getD rid.pageNum.toNat zeroPage).header.nextFreeSlot, -1⟩ ∧
    ((RHF_DeleteRecord pages rid).pages.getD rid.pageNum.toNat zeroPage).header.nextFreeSlot
      = rid.slotNum ∧
    ((RHF_DeleteRecord pages rid).pages.getD rid.pageNum.toNat zeroPage).header.numSlots
      = (pages.getD rid.pageNum.toNat zeroPage).header.numSlots ∧
    ((RHF_DeleteRecord pages rid).pages.getD rid.pageNum.toNat zeroPage).header.freeSpacePtr
      = (pages.getD rid.pageNum.toNat zeroPage).header.freeSpacePtr ∧
    (∀ j, j ≠ rid.slotNum.toNat →
      ((RHF_DeleteRecord pages rid).pages.getD rid.pageNum.toNat zeroPage).slots.getD j ⟨0, 0⟩
        = (pages.getD rid.pageNum.toNat zeroPage).slots.getD j ⟨0, 0⟩) ∧
    ((RHF_DeleteRecord pages rid).pages.getD rid.pageNum.toNat zeroPage).data
      = (pages.getD rid.pageNum.toNat zeroPage).data ∧
    (∀ q, q ≠ rid.pageNum.toNat →
      (RHF_DeleteRecord pages rid).pages.getD q zeroPage = pages.getD q zeroPage) ∧
    (RHF_DeleteRecord pages rid).events = [.fix rid.pageNum, .unfix rid.pageNum true] := by
  have hc1 : ¬ (rid.pageNum < 0 ∨ (pages.length : Int) ≤ rid.pageNum) := by omega
  have hc2 : ¬ (rid.slotNum < 0 ∨
      (pages.getD rid.pageNum.toNat zeroPage).header.numSlots ≤ rid.slotNum) := by omega
  have hd : RHF_DeleteRecord pages rid =
      ⟨PFE_OK,
       pages.set rid.pageNum.toNat
         { header := { numSlots := (pages.getD rid.pageNum.toNat zeroPage).header.numSlots,
                       freeSpacePtr := (pages.getD rid.pageNum.toNat zeroPage).header.freeSpacePtr,
                       nextFreeSlot := rid.slotNum },
           slots := (pages.getD rid.pageNum.toNat zeroPage).slots.set rid.slotNum.toNat
                      ⟨(pages.getD rid.pageNum.toNat zeroPage).header.nextFreeSlot, -1⟩,
           data := (pages.getD rid.pageNum.toNat zeroPage).data },
       [.fix rid.pageNum, .unfix rid.pageNum true]⟩ := by
    rw [RHF_DeleteRecord, if_neg hc1]
    simp only [if_neg hc2, if_neg h5]
  have hpl : rid.pageNum.toNat < pages.length := by omega
  have hsl : rid.slotNum.toNat <
      (pages.getD rid.pageNum.toNat zeroPage).slots.length := by omega
  rw [hd]
  refine ⟨rfl, ?_, ?_, ?_, ?_, ?_, ?_, ?_, rfl⟩
  · rw [getD_set_self _ _ _ _ hpl]
    exact getD_set_self _ _ _ _ hsl
  · rw [getD_set_self _ _ _ _ hpl]
  · rw [getD_set_self _ _ _ _ hpl]
  · rw [getD_set_self _ _ _ _ hpl]
  · intro j hj
    rw [getD_set_self _ _ _ _ hpl]
    exact getD_set_ne _ _ _ _ _ (fun h => hj h.symm)
  · rw [getD_set_self _ _ _ _ hpl]
  · intro q hq
    exact getD_set_ne _ _ _ _ _ (fun h => hq h.symm)



theorem netPins_fix_unfix (q : Int) (b : Bool) (p : Int) :
    netPins [.fix q, .unfix q b] p = 0 := by
  by_cases h : q = p <;> simp [netPins, pinDelta, h]

/-- C9: for every RID whose page fixes successfully (0 <= pageNum <
num_pages), RHF_GetRecord and RHF_DeleteRecord fail with RHF_INVALIDRID
exactly when the slot number is out of range (negative or >= numSlots),
and in that case the caller's output buffer receives nothing and the
file is unmodified. -/
theorem C9_invalid_rid (pages : List Page) (rid : RID)
    (h1 : 0 ≤ rid.pageNum) (h2 : rid.pageNum < (pages.length : Int)) :
    ((RHF_GetRecord pages rid).status = RHF_INVALIDRID ↔
      (rid.slotNum < 0 ∨
       (pages.getD rid.pageNum.toNat zeroPage).header.numSlots ≤ rid.slotNum)) ∧
    ((rid.slotNum < 0 ∨
       (pages.getD rid.pageNum.toNat zeroPage).header.numSlots ≤ rid.slotNum) →
      (RHF_GetRecord pages rid).out = none) ∧
    ((RHF_DeleteRecord pages rid).status = RHF_INVALIDRID ↔
      (rid.slotNum < 0 ∨
       (pages.getD rid.pageNum.toNat zeroPage).header.numSlots ≤ rid.slotNum)) ∧
    ((rid.slotNum < 0 ∨
       (pages.getD rid.pageNum.toNat zeroPage).header.numSlots ≤ rid.slotNum) →
      (RHF_DeleteRecord pages rid).pages = pages) := by
  have hc1 : ¬ (rid.pageNum < 0 ∨ (pages.length : Int) ≤ rid.pageNum) := by omega
  by_cases hbad : rid.slotNum < 0 ∨
      (pages.getD rid.pageNum.toNat zeroPage).header.numSlots ≤ rid.slotNum
  · have hG : RHF_GetRecord pages rid =
        ⟨RHF_INVALIDRID, none, [.fix rid.pageNum, .unfix rid.pageNum false]⟩ := by
      rw [RHF_GetRecord, if_neg hc1]
      simp only [if_pos hbad]
    have hD : RHF_DeleteRecord pages rid =
        ⟨RHF_INVALIDRID, pages, [.fix rid.pageNum, .unfix rid.pageNum false]⟩ := by
      rw [RHF_DeleteRecord, if_neg hc1]
      simp only [if_pos hbad]
    rw [hG, hD]
    exact ⟨Iff.intro (fun _ => hbad) (fun _ => rfl), fun _ => rfl,
           Iff.intro (fun _ => hbad) (fun _ => rfl), fun _ => rfl⟩
  · by_cases hoff : ((pages.getD rid.pageNum.toNat zeroPage).slots.getD
        rid.slotNum.toNat ⟨0, 0⟩).recordOffset = -1
    · have hG : (RHF_GetRecord pages rid).status = RHF_NORECORD := by
        rw [RHF_GetRecord, if_neg hc1]
        simp only [if_neg hbad, if_pos hoff]
      have hD : (RHF_DeleteRecord pages rid).status = RHF_NORECORD := by
        rw [RHF_DeleteRecord, if_neg hc1]
        simp only [if_neg hbad, if_pos hoff]
      rw [hG, hD]
      exact ⟨Iff.intro (fun h => absurd h (by decide)) (fun h => absurd h hbad),
             fun h => absurd h hbad,
             Iff.intro (fun h => absurd h (by decide)) (fun h => absurd h hbad),
             fun h => absurd h hbad⟩
    · have hG : (RHF_GetRecord pages rid).status = PFE_OK := by
        rw [RHF_GetRecord, if_neg hc1]
        simp only [if_neg hbad, if_neg hoff]
      have hD : (RHF_DeleteRecord pages rid).status = PFE_OK := by
        rw [RHF_DeleteRecord, if_neg hc1]
        simp only [if_neg hbad, if_neg hoff]
      rw [hG, hD]
      exact ⟨Iff.intro (fun h => absurd h (by decide)) (fun h => absurd h hbad),
             fun h => absurd h hbad,
             Iff.intro (fun h => absurd h (by decide)) (fun h => absurd h hbad),
             fun h => absurd h hbad⟩

theorem getRecord_cases (pages : List Page) (rid : RID) :
    (RHF_GetRecord pages rid).status = PFE_INVALIDPAGE ∧
      (RHF_GetRecord pages rid).events = [] ∨
    (RHF_GetRecord pages rid).events =
      [.fix rid.pageNum, .unfix rid.pageNum false] := by
  by_cases hc1 : rid.pageNum < 0 ∨ (pages.length : Int) ≤ rid.pageNum
  · left
    rw [RHF_GetRecord, if_pos hc1]
    exact ⟨rfl, rfl⟩
  · right
    rw [RHF_GetRecord, if_neg hc1]
    by_cases hbad : rid.slotNum < 0 ∨
        (pages.getD rid.pageNum.toNat zeroPage).header.numSlots ≤ rid.slotNum
    · simp only [if_pos hbad]
    · simp only [if_neg hbad]
      by_cases hoff : ((pages.getD rid.pageNum.toNat zeroPage).slots.getD
          rid.slotNum.toNat ⟨0, 0⟩).recordOffset = -1
      · simp only [if_pos hoff]
      · simp only [if_neg hoff]

theorem deleteRecord_cases (pages : List Page) (rid : RID) :
    (RHF_DeleteRecord pages rid).status = PFE_INVALIDPAGE ∧
      (RHF_DeleteRecord pages rid).events = [] ∨
    (RHF_DeleteRecord pages rid).events =
      [.fix rid.pageNum, .unfix rid.pageNum false] ∨
    (RHF_DeleteRecord pages rid).status = PFE_OK ∧
      (RHF_DeleteRecord pages rid).events =
        [.fix rid.pageNum, .unfix rid.pageNum true] := by
  by_cases hc1 : rid.pageNum < 0 ∨ (pages.length : Int) ≤ rid.pageNum
  · left
    rw [RHF_DeleteRecord, if_pos hc1]
    exact ⟨rfl, rfl⟩
  · by_cases hbad : rid.slotNum < 0 ∨
        (pages.getD rid.pageNum.toNat zeroPage).header.numSlots ≤ rid.slotNum
    · right; left
      rw [RHF_DeleteRecord, if_neg hc1]
      simp only [if_pos hbad]
    · by_cases hoff : ((pages.getD rid.pageNum.toNat zeroPage).slots.getD
          rid.slotNum.toNat ⟨0, 0⟩).recordOffset = -1
      · right; left
        rw [RHF_DeleteRecord, if_neg hc1]
        simp only [if_neg hbad, if_pos hoff]
      · right; right
        rw [RHF_DeleteRecord, if_neg hc1]
        simp only [if_neg hbad, if_neg hoff]
        constructor <;> first | rfl | trivial

theorem getRecord_error_events (pages : List Page) (rid : RID)
    (h : (RHF_GetRecord pages rid).status = RHF_INVALIDRID ∨
         (RHF_GetRecord pages rid).status = RHF_NORECORD) :
    (RHF_GetRecord pages rid).events =
      [.fix rid.pageNum, .unfix rid.pageNum false] := by
  rcases getRecord_cases pages rid with ⟨hs, he⟩ | he
  · rcases h with h | h <;> rw [hs] at h <;> exact absurd h (by decide)
  · exact he

theorem deleteRecord_error_events (pages : List Page) (rid : RID)
    (h : (RHF_DeleteRecord pages rid).status = RHF_INVALIDRID ∨
         (RHF_DeleteRecord pages rid).status = RHF_NORECORD) :
    (RHF_DeleteRecord pages rid).events =
      [.fix rid.pageNum, .unfix rid.pageNum false] := by
  rcases deleteRecord_cases pages rid with ⟨hs, he⟩ | he | ⟨hs, he⟩
  · rcases h with h | h <;> rw [hs] at h <;> exact absurd h (by decide)
  · exact he
  · rcases h with h | h <;> rw [hs] at h <;> exact absurd h (by decide)

/-- C10: whenever RHF_GetRecord or RHF_DeleteRecord returns
RHF_INVALIDRID or RHF_NORECORD, the page it fixed is unfixed with
dirty = false before returning; and no RHF record operation (get, delete
or insert) returns while still holding a page it fixed: the net pin
effect of every operation's event trace is zero on every page. -/
theorem C10_error_atomicity (pages : List Page) (rid : RID)
    (record : List Int) (len : Int) :
    (((RHF_GetRecord pages rid).status = RHF_INVALIDRID ∨
      (RHF_GetRecord pages rid).status = RHF_NORECORD) →
      (RHF_GetRecord pages rid).events =
        [.fix rid.pageNum, .unfix rid.pageNum false]) ∧
    (((RHF_DeleteRecord pages rid).status = RHF_INVALIDRID ∨
      (RHF_DeleteRecord pages rid).status = RHF_NORECORD) →
      (RHF_DeleteRecord pages rid).events =
        [.fix rid.pageNum, .unfix rid.pageNum false]) ∧
    (∀ p, netPins (RHF_GetRecord pages rid).events p = 0) ∧
    (∀ p, netPins (RHF_DeleteRecord pages rid).events p = 0) ∧
    (∀ p, netPins (RHF_InsertRecord pages record len).events p = 0) := by
  have hins : ∀ p, netPins (RHF_InsertRecord pages record len).events p = 0 := by
    intro p
    rcases hfp : rhf_findPage pages 0 len with ⟨o, evs0⟩
    have hnet := findPage_netPins pages 0 len p
    rw [hfp] at hnet
    cases o with
    | some i =>
        have hg' : rhf_GetPageWithSpace pages len =
            (i, pages.getD i zeroPage, pages, evs0) := by
          simp [rhf_GetPageWithSpace, hfp]
        simp only [RHF_InsertRecord, hg', netPins_append, hnet]
        by_cases hip : ((i : Nat) : Int) = p <;> simp [netPins, pinDelta, hip]
    | none =>
        have hg' : rhf_GetPageWithSpace pages len =
            (pages.length, rhf_InitPage zeroPage, pages ++ [rhf_InitPage zeroPage],
             evs0 ++ [.alloc (pages.length : Int)]) := by
          simp [rhf_GetPageWithSpace, hfp]
        simp only [RHF_InsertRecord, hg', netPins_append, hnet]
        by_cases hip : ((pages.length : Nat) : Int) = p <;> simp [netPins, pinDelta, hip]
  refine ⟨getRecord_error_events pages rid, deleteRecord_error_events pages rid,
    ?_, ?_, hins⟩
  · intro p
    rcases getRecord_cases pages rid with ⟨-, he⟩ | he <;> rw [he]
    · simp [netPins]
    · exact netPins_fix_unfix _ _ _
  · intro p
    rcases deleteRecord_cases pages rid with ⟨-, he⟩ | he | ⟨-, he⟩ <;> rw [he]
    · simp [netPins]
    · exact netPins_fix_unfix _ _ _
    · exact netPins_fix_unfix _ _ _

/-! ### Claim theorems -/

/-- C1: the claim asserts that after a successful RHF_DeleteRecord of RID r
(with no subsequent insert reassigning the slot), RHF_GetRecord(r) fails
with rhf_no_record regardless of how many records were already on the
page's free-slot chain at the time of the delete.  The code violates this:
RHF_DeleteRecord stores the old chain head in the slot's recordOffset, and
RHF_GetRecord tests deletedness by recordOffset == -1, so a record deleted
while the chain was non-empty (here slot 1, deleted while slot 0 headed
the chain) is still treated as live: RHF_GetRecord returns RHF_OK and
copies recordLength = -1 to the caller. -/
theorem C1_get_after_delete_bug :
    delFirst.status = RHF_OK ∧
    delSecond.status = RHF_OK ∧
    ((delSecond.pages.getD 0 zeroPage).slots.getD 1 ⟨0, 0⟩).recordLength = -1 ∧
    (delFirst.pages.getD 0 zeroPage).header.nextFreeSlot = 0 ∧
    (RHF_GetRecord delSecond.pages ⟨0, 1⟩).status = RHF_OK ∧
    (RHF_GetRecord delSecond.pages ⟨0, 1⟩).status ≠ RHF_NORECORD ∧
    (RHF_GetRecord delSecond.pages ⟨0, 1⟩).out = some (-1, []) := by
  decide

/-- C2: the claim asserts that RHF_DeleteRecord of an already-deleted slot
reports rhf_no_record and leaves the page unchanged, for any prior state
of the free-slot chain.  The code violates this: the already-deleted test
is recordOffset == -1, but a slot deleted while the chain was non-empty
holds the old chain head there (slot 1 holds 0).  The second delete of
RID (0,1) therefore returns RHF_OK, rewrites slot 1's recordOffset from 0
to 1, and leaves nextFreeSlot = 1 pointing at slot 1 itself — the chain
is corrupted into a self-loop. -/
theorem C2_double_delete_bug :
    ((delSecond.pages.getD 0 zeroPage).slots.getD 1 ⟨0, 0⟩).recordLength = -1 ∧
    ((delSecond.pages.getD 0 zeroPage).slots.getD 1 ⟨0, 0⟩).recordOffset = 0 ∧
    delThird.status = RHF_OK ∧
    delThird.status ≠ RHF_NORECORD ∧
    ((delThird.pages.getD 0 zeroPage).slots.getD 1 ⟨0, 0⟩).recordOffset = 1 ∧
    (delThird.pages.getD 0 zeroPage).header.nextFreeSlot = 1 := by
  decide

/-- Witness for C5 on an empty file: no page has space, so the insert
allocates page 0 and initializes it as an empty slotted page. -/
theorem C5_insert_first_fit_witness :
    (rhf_GetPageWithSpace ([] : List Page) 2).2.1.header = ⟨0, PF_PAGE_SIZE, -1⟩ ∧
    (RHF_InsertRecord ([] : List Page) [1, 2] 2).rid.pageNum = ((0 : Nat) : Int) := by
  have h := C5_insert_first_fit [] [1, 2] 2 0 (rhf_InitPage zeroPage)
    [rhf_InitPage zeroPage] [.alloc ((0 : Nat) : Int)] rfl
  exact ⟨(h.2.2.1 (Nat.le_refl 0)).2.1, h.2.2.2⟩

/-- Witness for C6 on the page of delFirst.pages, whose free-slot chain
holds slot 0: the insert pops slot 0 and follows the chain. -/
theorem C6_insert_slot_choice_witness :
    (RHF_InsertRecord delFirst.pages [9, 9] 2).rid.slotNum =
      (delFirst.pages.getD 0 zeroPage).header.nextFreeSlot ∧
    ((RHF_InsertRecord delFirst.pages [9, 9] 2).pages.getD 0 zeroPage).header.nextFreeSlot =
      ((delFirst.pages.getD 0 zeroPage).slots.getD
        (delFirst.pages.getD 0 zeroPage).header.nextFreeSlot.toNat ⟨0, 0⟩).recordOffset ∧
    ((RHF_InsertRecord delFirst.pages [9, 9] 2).pages.getD 0 zeroPage).header.numSlots =
      (delFirst.pages.getD 0 zeroPage).header.numSlots := by
  have h := C6_insert_slot_choice delFirst.pages [9, 9] 2 0
    (delFirst.pages.getD 0 zeroPage) delFirst.pages [.fix ((0 : Nat) : Int)] rfl
  exact h.1 (by decide)

/-- Witness for C7: deleting the live record (0,0) of twoRecFile. -/
theorem C7_delete_frame_witness :
    (RHF_DeleteRecord twoRecFile ⟨0, 0⟩).status = RHF_OK ∧
    ((RHF_DeleteRecord twoRecFile ⟨0, 0⟩).pages.getD 0 zeroPage).slots.getD 0 ⟨0, 0⟩ =
      ⟨(twoRecFile.getD 0 zeroPage).header.nextFreeSlot, -1⟩ ∧
    (RHF_DeleteRecord twoRecFile ⟨0, 0⟩).events =
      [.fix 0, .unfix 0 true] := by
  have h := C7_delete_frame twoRecFile ⟨0, 0⟩ (by decide) (by decide) (by decide)
    (by decide) (by decide) (by decide)
  exact ⟨h.1, h.2.1, h.2.2.2.2.2.2.2.2⟩

/-- Witness for C9: RID (0,5) is out of range on twoRecFile's page 0,
which has 2 slots. -/
theorem C9_invalid_rid_witness :
    (RHF_GetRecord twoRecFile ⟨0, 5⟩).status = RHF_INVALIDRID ∧
    (RHF_GetRecord twoRecFile ⟨0, 5⟩).out = none ∧
    (RHF_DeleteRecord twoRecFile ⟨0, 5⟩).status = RHF_INVALIDRID ∧
    (RHF_DeleteRecord twoRecFile ⟨0, 5⟩).pages = twoRecFile := by
  have h := C9_invalid_rid twoRecFile ⟨0, 5⟩ (by decide) (by decide)
  exact ⟨h.1.mpr (by decide), h.2.1 (by decide), h.2.2.1.mpr (by decide),
    h.2.2.2 (by decide)⟩


theorem pfNextPage_lt (np : Nat) (cur : Int) (n : Nat)
    (h : pfNextPage np cur = some n) : n < np := by
  unfold pfNextPage at h
  split at h
  · simp at h
    omega
  · simp at h
    omega

theorem rhf_scanPage_eq (slots : List RHF_Slot) (numSlots slotIdx : Int) :
    rhf_scanPage slots numSlots slotIdx =
      if numSlots ≤ slotIdx then none
      else if (slots.getD slotIdx.toNat ⟨0, 0⟩).recordLength ≠ -1 then
        some (slotIdx, slots.getD slotIdx.toNat ⟨0, 0⟩)
      else rhf_scanPage slots numSlots (slotIdx + 1) := by
  by_cases h : numSlots ≤ slotIdx
  · rw [if_pos h]
    unfold rhf_scanPage
    rw [show (numSlots - slotIdx).toNat = 0 by omega]
    rfl
  · rw [if_neg h]
    unfold rhf_scanPage
    rw [show (numSlots - slotIdx).toNat = (numSlots - (slotIdx + 1)).toNat + 1 by omega]
    rfl

theorem scanPagesLoop_eq (pages : List Page) (pageIdx : Nat) (slotIdx : Int)
    (hp : pageIdx < pages.length) :
    scanPagesLoop pages pageIdx slotIdx =
      match rhf_scanPage (pages.getD pageIdx zeroPage).slots
          (pages.getD pageIdx zeroPage).header.numSlots slotIdx with
      | some (i, slot) =>
          ⟨RHF_OK,
           some (slot.recordLength,
                 readBytes (pages.getD pageIdx zeroPage).data slot.recordOffset
                   slot.recordLength,
                 ⟨(pageIdx : Int), i⟩),
           ⟨(pageIdx : Int), i + 1, true⟩, []⟩
      | none =>
          if pageIdx + 1 < pages.length then
            ⟨(scanPagesLoop pages (pageIdx + 1) 0).status,
             (scanPagesLoop pages (pageIdx + 1) 0).out,
             (scanPagesLoop pages (pageIdx + 1) 0).scan,
             .unfix (pageIdx : Int) false :: .fix ((pageIdx : Int) + 1) ::
               (scanPagesLoop pages (pageIdx + 1) 0).events⟩
          else
            ⟨RHF_EOF, none,
             ⟨(pageIdx : Int),
              max slotIdx (pages.getD pageIdx zeroPage).header.numSlots, false⟩,
             [.unfix (pageIdx : Int) false]⟩ := by
  unfold scanPagesLoop
  rw [show pages.length - pageIdx = (pages.length - (pageIdx + 1)) + 1 by omega]
  rfl

theorem netPins_unfix_fix_cons (q : Int) (evs : List PFEvent) (p : Int) :
    netPins (.unfix q false :: .fix (q + 1) :: evs) p =
      netPins evs p - (if q = p then 1 else 0) + (if q + 1 = p then 1 else 0) := by
  rw [netPins_cons, netPins_cons]
  show (if q = p then (-1 : Int) else 0) + ((if q + 1 = p then (1 : Int) else 0) +
    netPins evs p) = _
  by_cases h1 : q = p <;> by_cases h2 : q + 1 = p <;> simp [h1, h2] <;> ring

theorem scanPagesLoop_pins :
    ∀ (pages : List Page) (pageIdx : Nat) (slotIdx : Int),
      pageIdx < pages.length →
      (∀ p, (if ((pageIdx : Nat) : Int) = p then 1 else 0) +
          netPins (scanPagesLoop pages pageIdx slotIdx).events p =
        heldPins (scanPagesLoop pages pageIdx slotIdx).scan p) ∧
      pinsBounded 1 (scanPagesLoop pages pageIdx slotIdx).events ∧
      ((scanPagesLoop pages pageIdx slotIdx).status = RHF_EOF →
        (scanPagesLoop pages pageIdx slotIdx).scan.page_is_fixed = false) ∧
      ((scanPagesLoop pages pageIdx slotIdx).status = RHF_OK →
        (scanPagesLoop pages pageIdx slotIdx).scan.page_is_fixed = true ∧
        0 ≤ (scanPagesLoop pages pageIdx slotIdx).scan.currentPage ∧
        (scanPagesLoop pages pageIdx slotIdx).scan.currentPage < (pages.length : Int)) ∧
      ((scanPagesLoop pages pageIdx slotIdx).status = RHF_EOF ∨
       (scanPagesLoop pages pageIdx slotIdx).status = RHF_OK)
  | pages, pageIdx, slotIdx => by
      intro hp
      rcases hsp : rhf_scanPage (pages.getD pageIdx zeroPage).slots
          (pages.getD pageIdx zeroPage).header.numSlots slotIdx with _ | ⟨i, slot⟩
      · by_cases hnext : pageIdx + 1 < pages.length
        · have IH := scanPagesLoop_pins pages (pageIdx + 1) 0 hnext
          have heq : scanPagesLoop pages pageIdx slotIdx =
              ⟨(scanPagesLoop pages (pageIdx + 1) 0).status,
               (scanPagesLoop pages (pageIdx + 1) 0).out,
               (scanPagesLoop pages (pageIdx + 1) 0).scan,
               .unfix (pageIdx : Int) false :: .fix ((pageIdx : Int) + 1) ::
                 (scanPagesLoop pages (pageIdx + 1) 0).events⟩ := by
            rw [scanPagesLoop_eq pages pageIdx slotIdx hp]
            simp only [hsp, if_pos hnext]
          rw [heq]
          refine ⟨?_, ?_, IH.2.2.1, IH.2.2.2.1, IH.2.2.2.2⟩
          · intro p
            have hIH := IH.1 p
            push_cast at hIH
            rw [netPins_unfix_fix_cons]
            linarith [hIH]
          · simp only [pinsBounded, totalPinDelta]
            norm_num
            exact IH.2.1
        · have heq : scanPagesLoop pages pageIdx slotIdx =
              ⟨RHF_EOF, none,
               ⟨(pageIdx : Int), max slotIdx (pages.getD pageIdx zeroPage).header.numSlots,
                false⟩,
               [.unfix (pageIdx : Int) false]⟩ := by
            rw [scanPagesLoop_eq pages pageIdx slotIdx hp]
            simp only [hsp, if_neg hnext]
          rw [heq]
          refine ⟨?_, ?_, fun _ => rfl, ?_, Or.inl rfl⟩
          · intro p
            have hn : netPins [PFEvent.unfix ((pageIdx : Nat) : Int) false] p =
                -(if ((pageIdx : Nat) : Int) = p then 1 else 0) := by
              by_cases h1 : ((pageIdx : Nat) : Int) = p <;> simp [netPins, pinDelta, h1]
            rw [hn]
            simp only [heldPins]
            by_cases h1 : ((pageIdx : Nat) : Int) = p <;> simp [h1]
          · simp only [pinsBounded, totalPinDelta]
            norm_num
          · intro h
            have hcon : RHF_EOF = RHF_OK := h
            exact absurd hcon (by decide)
      · have heq : scanPagesLoop pages pageIdx slotIdx =
            ⟨RHF_OK,
             some (slot.recordLength,
                   readBytes (pages.getD pageIdx zeroPage).data slot.recordOffset
                     slot.recordLength,
                   ⟨(pageIdx : Int), i⟩),
             ⟨(pageIdx : Int), i + 1, true⟩, []⟩ := by
          rw [scanPagesLoop_eq pages pageIdx slotIdx hp]
          simp only [hsp]
        rw [heq]
        refine ⟨?_, trivial, ?_, ?_, Or.inr rfl⟩
        · intro p
          simp only [heldPins, netPins, List.map_nil, List.sum_nil, add_zero]
          by_cases h1 : ((pageIdx : Nat) : Int) = p <;> simp [h1]
        · intro h
          have hcon : RHF_OK = RHF_EOF := h
          exact absurd hcon (by decide)
        · intro _
          refine ⟨rfl, by simp, ?_⟩
          show ((pageIdx : Nat) : Int) < (pages.length : Int)
          exact_mod_cast hp
termination_by pages pageIdx _ => pages.length - pageIdx
decreasing_by omega



/-- C8: throughout any scan, at most one page is fixed by the scan at any
call boundary and at any point inside a call (pinsBounded): the pin
accounting of RHF_GetNextRecord turns the pages held before the call into
the pages held after it, RHF_GetNextRecord returns RHF_EOF with no page
fixed when the file is exhausted and leaves exactly one page fixed when it
returns a record, and RHF_EndScan unfixes the scan's page if one is still
fixed, so after RHF_EndScan the scan holds no fixed page. -/
theorem C8_scan_single_fix (pages : List Page) (s : RHF_Scan)
    (hwf : s.page_is_fixed = true →
      0 ≤ s.currentPage ∧ s.currentPage < (pages.length : Int)) :
    (∀ p, heldPins s p + netPins (RHF_GetNextRecord pages s).events p =
       heldPins (RHF_GetNextRecord pages s).scan p) ∧
    pinsBounded (if s.page_is_fixed then 1 else 0)
      (RHF_GetNextRecord pages s).events ∧
    ((RHF_GetNextRecord pages s).status = RHF_EOF →
       (RHF_GetNextRecord pages s).scan.page_is_fixed = false) ∧
    ((RHF_GetNextRecord pages s).status = RHF_OK →
       (RHF_GetNextRecord pages s).scan.page_is_fixed = true) ∧
    (RHF_EndScan s).2.1.page_is_fixed = false ∧
    (∀ p, heldPins s p + netPins (RHF_EndScan s).2.2 p = 0) := by
  have hend : (RHF_EndScan s).2.1.page_is_fixed = false ∧
      (∀ p, heldPins s p + netPins (RHF_EndScan s).2.2 p = 0) := by
    by_cases hf : s.page_is_fixed
    · rw [RHF_EndScan, if_pos hf]
      refine ⟨rfl, fun p => ?_⟩
      have hn : netPins [PFEvent.unfix s.currentPage false] p =
          -(if s.currentPage = p then 1 else 0) := by
        by_cases h1 : s.currentPage = p <;> simp [netPins, pinDelta, h1]
      rw [hn]
      simp only [heldPins, hf, true_and]
      by_cases h1 : s.currentPage = p <;> simp [h1]
    · rw [RHF_EndScan, if_neg hf]
      refine ⟨rfl, fun p => ?_⟩
      simp [heldPins, hf, netPins]
  by_cases hf : s.page_is_fixed
  · obtain ⟨hc0, hcl⟩ := hwf hf
    have hlt : s.currentPage.toNat < pages.length := by omega
    have hG : RHF_GetNextRecord pages s = scanPagesLoop pages s.currentPage.toNat s.currentSlot := by
      rw [RHF_GetNextRecord, if_pos hf]
    obtain ⟨hpins, hbound, heof, hok, -⟩ :=
      scanPagesLoop_pins pages s.currentPage.toNat s.currentSlot hlt
    have hcast : ((s.currentPage.toNat : Nat) : Int) = s.currentPage := by omega
    rw [hG, hf]
    refine ⟨?_, by simpa using hbound, heof, fun h => (hok h).1, hend.1, hend.2⟩
    intro p
    have := hpins p
    rw [hcast] at this
    have hheld : heldPins s p = if s.currentPage = p then 1 else 0 := by
      simp [heldPins, hf]
    rw [hheld]
    exact this
  · have hfx : s.page_is_fixed = false := by simpa using hf
    rcases hnp : pfNextPage pages.length s.currentPage with _ | n
    · have hG : RHF_GetNextRecord pages s = ⟨RHF_EOF, none, s, []⟩ := by
        rw [RHF_GetNextRecord, hfx]
        simp only [Bool.false_eq_true, if_false, hnp]
      rw [hG]
      refine ⟨?_, ?_, fun _ => hfx, ?_, hend.1, hend.2⟩
      · intro p
        simp [netPins]
      · simp [pinsBounded]
      · intro h
        have hcon : RHF_EOF = RHF_OK := h
        exact absurd hcon (by decide)
    · have hG : RHF_GetNextRecord pages s =
          ⟨(scanPagesLoop pages n 0).status, (scanPagesLoop pages n 0).out,
           (scanPagesLoop pages n 0).scan,
           .fix ((n : Nat) : Int) :: (scanPagesLoop pages n 0).events⟩ := by
        rw [RHF_GetNextRecord, hfx]
        simp only [Bool.false_eq_true, if_false, hnp]
      rw [hG]
      have hlt : n < pages.length := pfNextPage_lt pages.length s.currentPage n hnp
      obtain ⟨hpins, hbound, heof, hok, -⟩ := scanPagesLoop_pins pages n 0 hlt
      refine ⟨?_, ?_, heof, fun h => (hok h).1, hend.1, hend.2⟩
      · intro p
        have := hpins p
        rw [netPins_cons]
        have hheld : heldPins s p = 0 := by simp [heldPins, hfx]
        rw [hheld]
        have hpd : pinDelta p (PFEvent.fix ((n : Nat) : Int)) =
            if ((n : Nat) : Int) = p then 1 else 0 := rfl
        rw [hpd]
        linarith [this]
      · rw [hfx]
        show pinsBounded 0 (.fix ((n : Nat) : Int) :: (scanPagesLoop pages n 0).events)
        refine ⟨⟨by norm_num [totalPinDelta], by norm_num [totalPinDelta]⟩, ?_⟩
        show pinsBounded (0 + 1) (scanPagesLoop pages n 0).events
        rw [zero_add]
        exact hbound

/-- Witness for C8: a fresh scan of twoRecFile returns a record with its
page fixed; ending the fresh scan holds nothing. -/
theorem C8_scan_single_fix_witness :
    (RHF_GetNextRecord twoRecFile RHF_StartScan).scan.page_is_fixed = true ∧
    (RHF_EndScan RHF_StartScan).2.1.page_is_fixed = false := by
  have h := C8_scan_single_fix twoRecFile RHF_StartScan (by decide)
  exact ⟨h.2.2.2.1 (by decide), h.2.2.2.2.1⟩


theorem FreeChain_mem {slots : List RHF_Slot} {h : Int} {l : List Nat}
    (hc : FreeChain slots h l) :
    ∀ i ∈ l, i < slots.length ∧ (slots.getD i ⟨0, 0⟩).recordLength = -1 := by
  induction hc with
  | nil => intro i hi; cases hi
  | cons hlt hdel hnm hrest ih =>
      intro i hi
      rcases List.mem_cons.mp hi with rfl | hi'
      · exact ⟨hlt, hdel⟩
      · exact ih i hi'

theorem FreeChain_congr {slots slots' : List RHF_Slot} {h : Int} {l : List Nat}
    (hc : FreeChain slots h l) (hlen : slots.length ≤ slots'.length)
    (heq : ∀ i ∈ l, slots'.getD i ⟨0, 0⟩ = slots.getD i ⟨0, 0⟩) :
    FreeChain slots' h l := by
  induction hc with
  | nil => exact .nil
  | cons hlt hdel hnm hrest ih =>
      rename_i i rest
      have hhead : slots'.getD i ⟨0, 0⟩ = slots.getD i ⟨0, 0⟩ :=
        heq i (List.mem_cons_self i rest)
      refine FreeChain.cons (by omega) (by rw [hhead]; exact hdel) hnm ?_
      rw [hhead]
      exact ih (fun j hj => heq j (List.mem_cons_of_mem _ hj))

theorem FreeChain_head_ne {slots : List RHF_Slot} {h : Int} {l : List Nat}
    (hc : FreeChain slots h l) (hne : h ≠ -1) :
    ∃ j rest, l = j :: rest ∧ h = ((j : Nat) : Int) ∧ j < slots.length ∧
      (slots.getD j ⟨0, 0⟩).recordLength = -1 ∧ j ∉ rest ∧
      FreeChain slots (slots.getD j ⟨0, 0⟩).recordOffset rest := by
  cases hc with
  | nil => exact absurd rfl hne
  | cons hlt hdel hnm hrest =>
      rename_i j rest
      exact ⟨j, rest, rfl, rfl, hlt, hdel, hnm, hrest⟩

theorem readBytes_copyBytes_of_le (d : Int → Int) (cOff : Int) (src : List Int)
    (cLen off len : Int) (h : cOff + cLen ≤ off) :
    readBytes (copyBytes d cOff src cLen) off len = readBytes d off len := by
  unfold readBytes
  apply List.map_congr_left
  intro i hi
  have hneg : ¬ (cOff ≤ off + (i : Int) ∧ off + (i : Int) < cOff + cLen) := by
    rintro ⟨h1, h2⟩
    have h3 : (0 : Int) ≤ (i : Int) := Int.natCast_nonneg i
    omega
  unfold copyBytes
  rw [if_neg hneg]

theorem range_map_getD (l : List Int) :
    (List.range l.length).map (fun i => l.getD i 0) = l := by
  induction l with
  | nil => rfl
  | cons x xs ih =>
      rw [List.length_cons, List.range_succ_eq_map, List.map_cons, List.map_map]
      refine congrArg₂ List.cons rfl ?_
      rw [show ((fun i => (x :: xs).getD i 0) ∘ Nat.succ) = (fun i => xs.getD i 0)
        from funext fun i => rfl]
      exact ih

theorem readBytes_copyBytes_self (d : Int → Int) (off : Int) (src : List Int) :
    readBytes (copyBytes d off src (src.length : Int)) off (src.length : Int) = src := by
  unfold readBytes copyBytes
  rw [Int.toNat_natCast]
  have hcg : ∀ i ∈ List.range src.length,
      (if off ≤ off + (i : Int) ∧ off + (i : Int) < off + (src.length : Int) then
        src.getD (off + (i : Int) - off).toNat 0
      else d (off + (i : Int))) = src.getD i 0 := by
    intro i hi
    have hi' : i < src.length := List.mem_range.mp hi
    rw [if_pos ⟨by omega, by omega⟩]
    congr 1
    omega
  rw [List.map_congr_left hcg, range_map_getD]

theorem set_snoc_length {α : Type} (l : List α) (x y : α) :
    (l ++ [x]).set l.length y = l ++ [y] := by
  induction l with
  | nil => rfl
  | cons a as ih =>
      show a :: (as ++ [x]).set as.length y = a :: (as ++ [y])
      rw [ih]



theorem insert_charF (pages : List Page) (record : List Int) (len : Int) :
    (∃ i, i < pages.length ∧ (rhf_findPage pages 0 len).1 = some i ∧
       hasSpaceFor (pages.getD i zeroPage) len = true ∧
       (RHF_InsertRecord pages record len).rid =
         ⟨(i : Int), (rhf_insertIntoPage (pages.getD i zeroPage) record len).2⟩ ∧
       (RHF_InsertRecord pages record len).pages =
         pages.set i (rhf_insertIntoPage (pages.getD i zeroPage) record len).1) ∨
    ((rhf_findPage pages 0 len).1 = none ∧
       (RHF_InsertRecord pages record len).rid =
         ⟨(pages.length : Int), (rhf_insertIntoPage (rhf_InitPage zeroPage) record len).2⟩ ∧
       (RHF_InsertRecord pages record len).pages =
         pages ++ [(rhf_insertIntoPage (rhf_InitPage zeroPage) record len).1]) := by
  rcases hfp : rhf_findPage pages 0 len with ⟨o, evs0⟩
  cases o with
  | some i =>
      obtain ⟨k, hk1, hk2, hk3, -, -⟩ := findPage_some_char pages 0 len i (by rw [hfp])
      have hik : i = k := by omega
      subst hik
      have hg' : rhf_GetPageWithSpace pages len = (i, pages.getD i zeroPage, pages, evs0) := by
        simp [rhf_GetPageWithSpace, hfp]
      left
      exact ⟨i, hk2, rfl, hk3, by simp [RHF_InsertRecord, hg'],
        by simp [RHF_InsertRecord, hg']⟩
  | none =>
      have hg' : rhf_GetPageWithSpace pages len =
          (pages.length, rhf_InitPage zeroPage, pages ++ [rhf_InitPage zeroPage],
           evs0 ++ [.alloc (pages.length : Int)]) := by
        simp [rhf_GetPageWithSpace, hfp]
      right
      refine ⟨rfl, by simp [RHF_InsertRecord, hg'], ?_⟩
      have hps : (RHF_InsertRecord pages record len).pages =
          (pages ++ [rhf_InitPage zeroPage]).set pages.length
            (rhf_insertIntoPage (rhf_InitPage zeroPage) record len).1 := by
        simp [RHF_InsertRecord, hg']
      rw [hps, set_snoc_length]

theorem Tracked_transport {pages pages' : List Page} {r : RID} {bytes : List Int}
    (ht : Tracked pages r bytes) (h1 : pages.length ≤ pages'.length)
    (h2 : trackedPage pages' r = trackedPage pages r) :
    Tracked pages' r bytes := by
  have h3 : trackedSlot pages' r = trackedSlot pages r := by
    unfold trackedSlot
    rw [h2]
  refine ⟨ht.hpg0, Nat.lt_of_lt_of_le ht.hpg h1, ht.hs0, ?_, ?_, ?_, ?_, ?_, ?_, ?_⟩
  · rw [h2]; exact ht.hsn
  · rw [h2]; exact ht.hslen
  · rw [h3]; exact ht.hoff0
  · rw [h2, h3]; exact ht.hfsp
  · rw [h3]; exact ht.hlen
  · rw [h2, h3]; exact ht.hbytes
  · rw [h2]; exact ht.hchain

theorem Tracked_del (pages : List Page) (r : RID) (bytes : List Int) (rid : RID)
    (ht : Tracked pages r bytes) (hok : delOK pages r rid) :
    Tracked (RHF_DeleteRecord pages rid).pages r bytes := by
  by_cases hpv : rid.pageNum < 0 ∨ (pages.length : Int) ≤ rid.pageNum
  · have hkeep : (RHF_DeleteRecord pages rid).pages = pages := by
      rw [RHF_DeleteRecord, if_pos hpv]
    rw [hkeep]
    exact ht
  · by_cases hbad : rid.slotNum < 0 ∨
        (pages.getD rid.pageNum.toNat zeroPage).header.numSlots ≤ rid.slotNum
    · have hkeep : (RHF_DeleteRecord pages rid).pages = pages := by
        rw [RHF_DeleteRecord, if_neg hpv]
        simp only [if_pos hbad]
      rw [hkeep]
      exact ht
    · by_cases hoff : ((pages.getD rid.pageNum.toNat zeroPage).slots.getD
          rid.slotNum.toNat ⟨0, 0⟩).recordOffset = -1
      · have hkeep : (RHF_DeleteRecord pages rid).pages = pages := by
          rw [RHF_DeleteRecord, if_neg hpv]
          simp only [if_neg hbad, if_pos hoff]
        rw [hkeep]
        exact ht
      · have hset : (RHF_DeleteRecord pages rid).pages =
            pages.set rid.pageNum.toNat
              { header := { numSlots := (pages.getD rid.pageNum.toNat zeroPage).header.numSlots,
                            freeSpacePtr := (pages.getD rid.pageNum.toNat zeroPage).header.freeSpacePtr,
                            nextFreeSlot := rid.slotNum },
                slots := (pages.getD rid.pageNum.toNat zeroPage).slots.set rid.slotNum.toNat
                           ⟨(pages.getD rid.pageNum.toNat zeroPage).header.nextFreeSlot, -1⟩,
                data := (pages.getD rid.pageNum.toNat zeroPage).data } := by
          rw [RHF_DeleteRecord, if_neg hpv]
          simp only [if_neg hbad, if_neg hoff]
        by_cases hpq : rid.pageNum = r.pageNum
        · -- delete of another live record on the tracked page
          obtain ⟨hne, hss0, hslt, hlive⟩ := hok hpq
          have hq : rid.pageNum.toNat = r.pageNum.toNat := by rw [hpq]
          have hsne : rid.slotNum.toNat ≠ r.slotNum.toNat := by
            intro hcon
            apply hne
            have h0 := ht.hs0
            omega
          have hPeq : pages.getD rid.pageNum.toNat zeroPage = trackedPage pages r := by
            rw [hq]; rfl
          have hpglt : r.pageNum.toNat < pages.length := ht.hpg
          have hsltN : rid.slotNum.toNat < (trackedPage pages r).slots.length := by
            have h1 := ht.hslen
            omega
          have hTP : trackedPage (RHF_DeleteRecord pages rid).pages r =
              { header := { numSlots := (trackedPage pages r).header.numSlots,
                            freeSpacePtr := (trackedPage pages r).header.freeSpacePtr,
                            nextFreeSlot := rid.slotNum },
                slots := (trackedPage pages r).slots.set rid.slotNum.toNat
                           ⟨(trackedPage pages r).header.nextFreeSlot, -1⟩,
                data := (trackedPage pages r).data } := by
            rw [hset]
            unfold trackedPage
            rw [hq]
            rw [getD_set_self _ _ _ _ hpglt]
          have hTS : trackedSlot (RHF_DeleteRecord pages rid).pages r =
              trackedSlot pages r := by
            unfold trackedSlot
            rw [hTP]
            exact getD_set_ne _ _ _ _ _ hsne
          obtain ⟨l, hc⟩ := ht.hchain
          refine ⟨ht.hpg0, by rw [hset]; simpa using ht.hpg, ht.hs0, ?_, ?_, ?_, ?_, ?_, ?_, ?_⟩
          · rw [hTP]; exact ht.hsn
          · rw [hTP]; simpa using ht.hslen
          · rw [hTS]; exact ht.hoff0
          · rw [hTP, hTS]; exact ht.hfsp
          · rw [hTS]; exact ht.hlen
          · rw [hTP, hTS]; exact ht.hbytes
          · -- rebuild the free chain with the deleted slot at its head
            rw [hTP]
            have hmem := FreeChain_mem hc
            have hnotin : rid.slotNum.toNat ∉ l := by
              intro hin
              have := (hmem _ hin).2
              exact hlive this
            have hc' : FreeChain ((trackedPage pages r).slots.set rid.slotNum.toNat
                ⟨(trackedPage pages r).header.nextFreeSlot, -1⟩)
                (trackedPage pages r).header.nextFreeSlot l := by
              refine FreeChain_congr hc (by simp) ?_
              intro j hj
              exact getD_set_ne _ _ _ _ _ (fun hcon => hnotin (hcon ▸ hj))
            refine ⟨rid.slotNum.toNat :: l, ?_⟩
            have hgoal : FreeChain ((trackedPage pages r).slots.set rid.slotNum.toNat
                ⟨(trackedPage pages r).header.nextFreeSlot, -1⟩)
                ((rid.slotNum.toNat : Nat) : Int) (rid.slotNum.toNat :: l) := by
              refine FreeChain.cons (by simpa using hsltN) ?_ hnotin ?_
              · rw [getD_set_self _ _ _ _ hsltN]
              · rw [getD_set_self _ _ _ _ hsltN]
                exact hc'
            have hhead : ((rid.slotNum.toNat : Nat) : Int) = rid.slotNum := by omega
            rw [hhead] at hgoal
            exact hgoal
        · -- delete on a different page: the tracked page is untouched
          rw [hset]
          refine Tracked_transport ht (by simp) ?_
          unfold trackedPage
          have hqq : rid.pageNum.toNat ≠ r.pageNum.toNat := by
            rcases ht.hpg0.lt_or_eq with h0 | h0
            · omega
            · omega
          exact getD_set_ne _ _ _ _ _ hqq



theorem insertIntoPage_pop (p : Page) (record : List Int) (len : Int)
    (hnfs : p.header.nextFreeSlot ≠ -1) :
    rhf_insertIntoPage p record len =
      ({ header := { numSlots := p.header.numSlots,
                     freeSpacePtr := p.header.freeSpacePtr - len,
                     nextFreeSlot := (p.slots.getD p.header.nextFreeSlot.toNat
                       ⟨0, 0⟩).recordOffset },
         slots := p.slots.set p.header.nextFreeSlot.toNat
                    ⟨p.header.freeSpacePtr - len, len⟩,
         data := copyBytes p.data (p.header.freeSpacePtr - len) record len },
       p.header.nextFreeSlot) := by
  unfold rhf_insertIntoPage
  rw [if_pos hnfs]

theorem insertIntoPage_append (p : Page) (record : List Int) (len : Int)
    (hnfs : p.header.nextFreeSlot = -1) :
    rhf_insertIntoPage p record len =
      ({ header := { numSlots := p.header.numSlots + 1,
                     freeSpacePtr := p.header.freeSpacePtr - len,
                     nextFreeSlot := p.header.nextFreeSlot },
         slots := p.slots ++ [⟨p.header.freeSpacePtr - len, len⟩],
         data := copyBytes p.data (p.header.freeSpacePtr - len) record len },
       p.header.numSlots) := by
  unfold rhf_insertIntoPage
  rw [if_neg (not_not_intro hnfs)]

theorem Tracked_ins (pages : List Page) (r : RID) (bytes bs : List Int)
    (ht : Tracked pages r bytes) :
    Tracked (RHF_InsertRecord pages bs (bs.length : Int)).pages r bytes := by
  have hlen0 : (0 : Int) ≤ (bs.length : Int) := Int.natCast_nonneg _
  have hblen0 : (0 : Int) ≤ (bytes.length : Int) := Int.natCast_nonneg _
  rcases insert_charF pages bs (bs.length : Int) with
    ⟨i, hi, -, hsp, -, hpgs⟩ | ⟨-, -, hpgs⟩
  · rw [hpgs]
    by_cases hiq : i = r.pageNum.toNat
    · subst hiq
      have hTPold : pages.getD r.pageNum.toNat zeroPage = trackedPage pages r := rfl
      rw [hTPold]
      set NP := (rhf_insertIntoPage (trackedPage pages r) bs (bs.length : Int)).1
        with hNPdef
      have hTP : trackedPage (pages.set r.pageNum.toNat NP) r = NP := by
        unfold trackedPage
        exact getD_set_self _ _ _ _ ht.hpg
      have hsB : r.slotNum.toNat < (trackedPage pages r).slots.length := by
        have h1 := ht.hslen
        have h2 := ht.hsn
        have h3 := ht.hs0
        omega
      by_cases hnfs : (trackedPage pages r).header.nextFreeSlot = -1
      · -- append branch on the tracked page
        have key := insertIntoPage_append (trackedPage pages r) bs (bs.length : Int) hnfs
        have hH : NP.header =
            ⟨(trackedPage pages r).header.numSlots + 1,
             (trackedPage pages r).header.freeSpacePtr - (bs.length : Int),
             (trackedPage pages r).header.nextFreeSlot⟩ := by
          rw [hNPdef, key]
        have hS : NP.slots = (trackedPage pages r).slots ++
            [⟨(trackedPage pages r).header.freeSpacePtr - (bs.length : Int),
              (bs.length : Int)⟩] := by
          rw [hNPdef, key]
        have hD : NP.data = copyBytes (trackedPage pages r).data
            ((trackedPage pages r).header.freeSpacePtr - (bs.length : Int)) bs
            (bs.length : Int) := by
          rw [hNPdef, key]
        have hTS : trackedSlot (pages.set r.pageNum.toNat NP) r =
            trackedSlot pages r := by
          unfold trackedSlot
          rw [hTP, hS]
          exact List.getD_append _ _ _ _ hsB
        refine ⟨ht.hpg0, by simpa using ht.hpg, ht.hs0, ?_, ?_, ?_, ?_, ?_, ?_, ?_⟩
        · rw [hTP, hH]
          dsimp only
          have := ht.hsn
          omega
        · rw [hTP, hH, hS]
          dsimp only
          simp only [List.length_append, List.length_singleton]
          have := ht.hslen
          push_cast
          omega
        · rw [hTS]; exact ht.hoff0
        · rw [hTP, hTS, hH]
          dsimp only
          have h1 := ht.hfsp
          omega
        · rw [hTS]; exact ht.hlen
        · rw [hTP, hTS, hD]
          rw [readBytes_copyBytes_of_le _ _ _ _ _ _ (by have := ht.hfsp; omega)]
          exact ht.hbytes
        · rw [hTP, hH, hS]
          exact ⟨[], by rw [hnfs]; exact .nil⟩
      · -- pop branch on the tracked page
        obtain ⟨l, hc⟩ := ht.hchain
        obtain ⟨j, rest, hl, hj, hjlt, hjdel, hjnm, hrest⟩ := FreeChain_head_ne hc hnfs
        have hjto : (trackedPage pages r).header.nextFreeSlot.toNat = j := by omega
        have hjs : j ≠ r.slotNum.toNat := by
          intro hcon
          have hts : trackedSlot pages r = (trackedPage pages r).slots.getD j ⟨0, 0⟩ := by
            unfold trackedSlot
            rw [hcon]
          have hx := ht.hlen
          rw [hts, hjdel] at hx
          omega
        have key := insertIntoPage_pop (trackedPage pages r) bs (bs.length : Int) hnfs
        rw [hjto] at key
        have hH : NP.header =
            ⟨(trackedPage pages r).header.numSlots,
             (trackedPage pages r).header.freeSpacePtr - (bs.length : Int),
             ((trackedPage pages r).slots.getD j ⟨0, 0⟩).recordOffset⟩ := by
          rw [hNPdef, key]
        have hS : NP.slots = (trackedPage pages r).slots.set j
            ⟨(trackedPage pages r).header.freeSpacePtr - (bs.length : Int),
             (bs.length : Int)⟩ := by
          rw [hNPdef, key]
        have hD : NP.data = copyBytes (trackedPage pages r).data
            ((trackedPage pages r).header.freeSpacePtr - (bs.length : Int)) bs
            (bs.length : Int) := by
          rw [hNPdef, key]
        have hTS : trackedSlot (pages.set r.pageNum.toNat NP) r =
            trackedSlot pages r := by
          unfold trackedSlot
          rw [hTP, hS]
          exact getD_set_ne _ _ _ _ _ hjs
        refine ⟨ht.hpg0, by simpa using ht.hpg, ht.hs0, ?_, ?_, ?_, ?_, ?_, ?_, ?_⟩
        · rw [hTP, hH]; dsimp only; exact ht.hsn
        · rw [hTP, hH, hS]
          dsimp only
          simp only [List.length_set]
          exact ht.hslen
        · rw [hTS]; exact ht.hoff0
        · rw [hTP, hTS, hH]
          dsimp only
          have h1 := ht.hfsp
          omega
        · rw [hTS]; exact ht.hlen
        · rw [hTP, hTS, hD]
          rw [readBytes_copyBytes_of_le _ _ _ _ _ _ (by have := ht.hfsp; omega)]
          exact ht.hbytes
        · rw [hTP, hH, hS]
          refine ⟨rest, ?_⟩
          refine FreeChain_congr hrest (by simp) ?_
          intro k hk
          exact getD_set_ne _ _ _ _ _ (fun hcon => hjnm (hcon ▸ hk))
    · -- insert lands on a different page
      refine Tracked_transport ht (by simp) ?_
      unfold trackedPage
      exact getD_set_ne _ _ _ _ _ hiq
  · -- insert allocates a fresh page, beyond the tracked one
    rw [hpgs]
    refine Tracked_transport ht (by simp) ?_
    unfold trackedPage
    exact List.getD_append _ _ _ _ ht.hpg



theorem Tracked_establish (pages : List Page) (bs : List Int)
    (hwf : ∀ p ∈ pages, PageWF p) (hblen : (bs.length : Int) ≤ PF_PAGE_SIZE) :
    Tracked (RHF_InsertRecord pages bs (bs.length : Int)).pages
      (RHF_InsertRecord pages bs (bs.length : Int)).rid bs := by
  have hlen0 : (0 : Int) ≤ (bs.length : Int) := Int.natCast_nonneg _
  rcases insert_charF pages bs (bs.length : Int) with
    ⟨i, hi, -, hsp, hrid, hpgs⟩ | ⟨-, hrid, hpgs⟩
  · -- on an existing page i
    have hmem : pages.getD i zeroPage ∈ pages := by
      rw [List.getD_eq_getElem _ _ hi]
      exact List.getElem_mem hi
    obtain ⟨hslen, l, hchain⟩ := hwf _ hmem
    have hspace : (bs.length : Int) + spaceNeededForSlot (pages.getD i zeroPage) ≤
        freeSpace (pages.getD i zeroPage) := of_decide_eq_true hsp
    rw [hrid, hpgs]
    set P := pages.getD i zeroPage with hPdef
    set NP := (rhf_insertIntoPage P bs (bs.length : Int)).1 with hNPdef
    have hTP : ∀ sn : Int, trackedPage (pages.set i NP) ⟨(i : Int), sn⟩ = NP := by
      intro sn
      unfold trackedPage
      rw [show ((i : Int)).toNat = i from Int.toNat_natCast i]
      exact getD_set_self _ _ _ _ hi
    by_cases hnfs : P.header.nextFreeSlot = -1
    · -- append a fresh slot at index numSlots
      have key := insertIntoPage_append P bs (bs.length : Int) hnfs
      have hsnum : (rhf_insertIntoPage P bs (bs.length : Int)).2 = P.header.numSlots := by
        rw [key]
      have hH : NP.header = ⟨P.header.numSlots + 1,
          P.header.freeSpacePtr - (bs.length : Int), P.header.nextFreeSlot⟩ := by
        rw [hNPdef, key]
      have hS : NP.slots = P.slots ++
          [⟨P.header.freeSpacePtr - (bs.length : Int), (bs.length : Int)⟩] := by
        rw [hNPdef, key]
      have hD : NP.data = copyBytes P.data
          (P.header.freeSpacePtr - (bs.length : Int)) bs (bs.length : Int) := by
        rw [hNPdef, key]
      have hspace' : (bs.length : Int) + 8 ≤
          P.header.freeSpacePtr - (12 + P.header.numSlots * 8) := by
        have := hspace
        rw [spaceNeededForSlot, if_pos hnfs] at this
        simpa [freeSpace, sizeofHeader, sizeofSlot] using this
      rw [hsnum]
      have hTS : trackedSlot (pages.set i NP) ⟨(i : Int), P.header.numSlots⟩ =
          ⟨P.header.freeSpacePtr - (bs.length : Int), (bs.length : Int)⟩ := by
        unfold trackedSlot
        rw [hTP, hS]
        rw [show P.header.numSlots.toNat = P.slots.length by omega]
        exact getD_snoc_length _ _ _
      refine ⟨Int.natCast_nonneg i, ?_, by dsimp only; omega, ?_, ?_, ?_, ?_, ?_, ?_, ?_⟩
      · rw [show ((i : Int)).toNat = i from Int.toNat_natCast i]
        simpa using hi
      · rw [hTP, hH]
        dsimp only
        omega
      · rw [hTP, hH, hS]
        dsimp only
        simp only [List.length_append, List.length_singleton]
        push_cast
        omega
      · rw [hTS]
        dsimp only
        omega
      · rw [hTP, hTS, hH]
      · rw [hTS]
      · rw [hTP, hTS, hD]
        dsimp only
        exact readBytes_copyBytes_self _ _ _
      · rw [hTP, hH, hS]
        refine ⟨l, ?_⟩
        dsimp only
        refine FreeChain_congr hchain (by simp) ?_
        intro k hk
        exact List.getD_append _ _ _ _ ((FreeChain_mem hchain _ hk).1)
    · -- pop the head of the free chain
      obtain ⟨j, rest, hl, hj, hjlt, hjdel, hjnm, hrest⟩ := FreeChain_head_ne hchain hnfs
      have hjto : P.header.nextFreeSlot.toNat = j := by omega
      have key := insertIntoPage_pop P bs (bs.length : Int) hnfs
      rw [hjto] at key
      have hsnum : (rhf_insertIntoPage P bs (bs.length : Int)).2 =
          P.header.nextFreeSlot := by
        rw [key]
      have hH : NP.header = ⟨P.header.numSlots,
          P.header.freeSpacePtr - (bs.length : Int),
          (P.slots.getD j ⟨0, 0⟩).recordOffset⟩ := by
        rw [hNPdef, key]
      have hS : NP.slots = P.slots.set j
          ⟨P.header.freeSpacePtr - (bs.length : Int), (bs.length : Int)⟩ := by
        rw [hNPdef, key]
      have hD : NP.data = copyBytes P.data
          (P.header.freeSpacePtr - (bs.length : Int)) bs (bs.length : Int) := by
        rw [hNPdef, key]
      have hspace' : (bs.length : Int) ≤
          P.header.freeSpacePtr - (12 + P.header.numSlots * 8) := by
        have := hspace
        rw [spaceNeededForSlot, if_neg hnfs] at this
        simpa [freeSpace, sizeofHeader, sizeofSlot] using this
      rw [hsnum]
      have hTS : trackedSlot (pages.set i NP) ⟨(i : Int), P.header.nextFreeSlot⟩ =
          ⟨P.header.freeSpacePtr - (bs.length : Int), (bs.length : Int)⟩ := by
        unfold trackedSlot
        rw [hTP, hS, hjto]
        exact getD_set_self _ _ _ _ hjlt
      refine ⟨Int.natCast_nonneg i, ?_, by dsimp only; omega, ?_, ?_, ?_, ?_, ?_, ?_, ?_⟩
      · rw [show ((i : Int)).toNat = i from Int.toNat_natCast i]
        simpa using hi
      · rw [hTP, hH]
        dsimp only
        omega
      · rw [hTP, hH, hS]
        dsimp only
        simp only [List.length_set]
        exact hslen
      · rw [hTS]
        dsimp only
        omega
      · rw [hTP, hTS, hH]
      · rw [hTS]
      · rw [hTP, hTS, hD]
        dsimp only
        exact readBytes_copyBytes_self _ _ _
      · rw [hTP, hH, hS]
        refine ⟨rest, ?_⟩
        dsimp only
        have hro : ((P.slots.set j
            ⟨P.header.freeSpacePtr - (bs.length : Int), (bs.length : Int)⟩).getD j
            ⟨0, 0⟩) = ⟨P.header.freeSpacePtr - (bs.length : Int), (bs.length : Int)⟩ :=
          getD_set_self _ _ _ _ hjlt
        refine FreeChain_congr hrest (by simp) ?_
        intro k hk
        exact getD_set_ne _ _ _ _ _ (fun hcon => hjnm (hcon ▸ hk))
  · -- fresh page
    rw [hrid, hpgs]
    have key := insertIntoPage_append (rhf_InitPage zeroPage) bs (bs.length : Int) rfl
    set NP := (rhf_insertIntoPage (rhf_InitPage zeroPage) bs (bs.length : Int)).1
      with hNPdef
    have hsnum : (rhf_insertIntoPage (rhf_InitPage zeroPage) bs (bs.length : Int)).2
        = 0 := by
      rw [key]
      rfl
    have hH : NP.header = ⟨1, PF_PAGE_SIZE - (bs.length : Int), -1⟩ := by
      rw [hNPdef, key]
      rfl
    have hS : NP.slots = [⟨PF_PAGE_SIZE - (bs.length : Int), (bs.length : Int)⟩] := by
      rw [hNPdef, key]
      rfl
    have hD : NP.data = copyBytes (fun _ => 0)
        (PF_PAGE_SIZE - (bs.length : Int)) bs (bs.length : Int) := by
      rw [hNPdef, key]
      rfl
    have hTP : trackedPage (pages ++ [NP]) ⟨(pages.length : Int), 0⟩ = NP := by
      unfold trackedPage
      rw [show ((pages.length : Int)).toNat = pages.length from Int.toNat_natCast _]
      exact getD_snoc_length _ _ _
    rw [hsnum]
    have hTS : trackedSlot (pages ++ [NP]) ⟨(pages.length : Int), 0⟩ =
        ⟨PF_PAGE_SIZE - (bs.length : Int), (bs.length : Int)⟩ := by
      unfold trackedSlot
      rw [hTP, hS]
      rfl
    refine ⟨Int.natCast_nonneg _, ?_, le_refl 0, ?_, ?_, ?_, ?_, ?_, ?_, ?_⟩
    · rw [show ((pages.length : Int)).toNat = pages.length from Int.toNat_natCast _]
      simp
    · rw [hTP, hH]
      dsimp only
      omega
    · rw [hTP, hH, hS]
      rfl
    · rw [hTS]
      dsimp only
      rw [PF_PAGE_SIZE] at hblen ⊢
      omega
    · rw [hTP, hTS, hH]
    · rw [hTS]
    · rw [hTP, hTS, hD]
      dsimp only
      exact readBytes_copyBytes_self _ _ _
    · rw [hTP, hH, hS]
      exact ⟨[], .nil⟩

theorem Tracked_get (pages : List Page) (r : RID) (bytes : List Int)
    (ht : Tracked pages r bytes) :
    (RHF_GetRecord pages r).status = RHF_OK ∧
    (RHF_GetRecord pages r).out = some ((bytes.length : Int), bytes) := by
  have hblen0 : (0 : Int) ≤ (bytes.length : Int) := Int.natCast_nonneg _
  have hc1 : ¬ (r.pageNum < 0 ∨ (pages.length : Int) ≤ r.pageNum) := by
    have h1 := ht.hpg0
    have h2 := ht.hpg
    omega
  have hc2 : ¬ (r.slotNum < 0 ∨
      (pages.getD r.pageNum.toNat zeroPage).header.numSlots ≤ r.slotNum) := by
    have h1 := ht.hs0
    have h2 := ht.hsn
    unfold trackedPage at h2
    omega
  have hc3 : ¬ ((pages.getD r.pageNum.toNat zeroPage).slots.getD r.slotNum.toNat
      ⟨0, 0⟩).recordOffset = -1 := by
    have h1 := ht.hoff0
    unfold trackedSlot trackedPage at h1
    omega
  have hG : RHF_GetRecord pages r =
      ⟨PFE_OK,
       some (((pages.getD r.pageNum.toNat zeroPage).slots.getD r.slotNum.toNat
                ⟨0, 0⟩).recordLength,
             readBytes (pages.getD r.pageNum.toNat zeroPage).data
               ((pages.getD r.pageNum.toNat zeroPage).slots.getD r.slotNum.toNat
                 ⟨0, 0⟩).recordOffset
               ((pages.getD r.pageNum.toNat zeroPage).slots.getD r.slotNum.toNat
                 ⟨0, 0⟩).recordLength),
       [.fix r.pageNum, .unfix r.pageNum false]⟩ := by
    rw [RHF_GetRecord, if_neg hc1]
    simp only [if_neg hc2, if_neg hc3]
  rw [hG]
  refine ⟨rfl, ?_⟩
  have hlen := ht.hlen
  have hbytes := ht.hbytes
  unfold trackedSlot trackedPage at hlen hbytes
  rw [hlen]
  rw [hbytes]

theorem Tracked_runOps :
    ∀ (ops : List Op) (pages : List Page) (r : RID) (bytes : List Int),
      Tracked pages r bytes → ValidOps r pages ops →
      Tracked (runOps pages ops) r bytes
  | [], pages, r, bytes, ht, _ => ht
  | op :: ops, pages, r, bytes, ht, hv => by
      cases hv with
      | cons hok hrest =>
          have ht' : Tracked (runOp pages op) r bytes := by
            cases op with
            | ins bs => exact Tracked_ins pages r bytes bs ht
            | del rid => exact Tracked_del pages r bytes rid ht hok
          exact Tracked_runOps ops (runOp pages op) r bytes ht' hrest



/-- C3: for every record inserted by RHF_InsertRecord returning RID r, as
long as no RHF_DeleteRecord is applied to r, RHF_GetRecord(r) succeeds and
returns exactly the inserted length and bytes, after any interleaved
inserts and deletes of other records (RID stability).  The initial file is
well formed (true of any file produced by RHF operations); the record and
every interleaved insert fit a page, record plus header plus one slot
within PF_PAGE_SIZE (rhf.c performs no space check after PF_AllocPage, so
a longer record's memcpy would overwrite the fresh page's own header and
slot array, outside this embedding); and "deletes of other records" target
existing live records other than r, state by state (ValidOps) — a delete
of an already-deleted slot is not a delete of a record and can corrupt the
free chain (see C2). -/
theorem C3_rid_stability (pages0 : List Page) (bytes : List Int) (ops : List Op)
    (hwf : ∀ p ∈ pages0, PageWF p)
    (hblen : (bytes.length : Int) + sizeofHeader + sizeofSlot ≤ PF_PAGE_SIZE)
    (hval : ValidOps (RHF_InsertRecord pages0 bytes (bytes.length : Int)).rid
              (RHF_InsertRecord pages0 bytes (bytes.length : Int)).pages ops) :
    (RHF_GetRecord
        (runOps (RHF_InsertRecord pages0 bytes (bytes.length : Int)).pages ops)
        (RHF_InsertRecord pages0 bytes (bytes.length : Int)).rid).status = RHF_OK ∧
    (RHF_GetRecord
        (runOps (RHF_InsertRecord pages0 bytes (bytes.length : Int)).pages ops)
        (RHF_InsertRecord pages0 bytes (bytes.length : Int)).rid).out =
      some ((bytes.length : Int), bytes) :=
  Tracked_get _ _ _
    (Tracked_runOps ops _ _ _
      (Tracked_establish pages0 bytes hwf
        (by unfold sizeofHeader sizeofSlot at hblen; omega)) hval)

/-- Witness for C3: insert [7,8] into an empty file, then insert [9] and
delete the second record; the first record reads back intact. -/
theorem C3_rid_stability_witness :
    (RHF_GetRecord
        (runOps (RHF_InsertRecord [] [7, 8] (([7, 8] : List Int).length : Int)).pages
          [.ins [9], .del ⟨0, 1⟩])
        (RHF_InsertRecord [] [7, 8] (([7, 8] : List Int).length : Int)).rid).status =
      RHF_OK ∧
    (RHF_GetRecord
        (runOps (RHF_InsertRecord [] [7, 8] (([7, 8] : List Int).length : Int)).pages
          [.ins [9], .del ⟨0, 1⟩])
        (RHF_InsertRecord [] [7, 8] (([7, 8] : List Int).length : Int)).rid).out =
      some ((([7, 8] : List Int).length : Int), [7, 8]) := by
  refine C3_rid_stability [] [7, 8] [.ins [9], .del ⟨0, 1⟩] (by simp) (by decide) ?_
  refine ValidOps.cons (by decide) (ValidOps.cons ?_ ValidOps.nil)
  decide

end DB

namespace DB

theorem list_decomp_at {α : Type} (l : List α) (k : Nat) (d : α) (h : k < l.length) :
    l = l.take k ++ l.getD k d :: l.drop (k + 1) := by
  conv_lhs => rw [← List.take_append_drop k l]
  rw [List.drop_eq_getElem_cons h, List.getD_eq_getElem _ _ h]

theorem set_decomp_at {α : Type} (l : List α) (k : Nat) (x : α) (h : k < l.length) :
    l.set k x = l.take k ++ x :: l.drop (k + 1) := by
  rw [List.set_eq_take_append_cons_drop, if_pos h]

/-- liveRecs of the page after an insert-into-page: the new record's bytes
join the page's live records (as a permutation). -/
theorem liveRecs_insertIntoPage (p : Page) (bs : List Int)
    (hinv : PageInv p) :
    (liveRecs (rhf_insertIntoPage p bs (bs.length : Int)).1).Perm
      (bs :: liveRecs p) := by
  obtain ⟨⟨hslen, l, hchain⟩, hoffs⟩ := hinv
  have hlen0 : (0 : Int) ≤ (bs.length : Int) := Int.natCast_nonneg _
  have hreads : ∀ s ∈ p.slots.filter (fun s => decide (s.recordLength ≠ -1)),
      readBytes (copyBytes p.data (p.header.freeSpacePtr - (bs.length : Int)) bs
        (bs.length : Int)) s.recordOffset s.recordLength =
      readBytes p.data s.recordOffset s.recordLength := by
    intro s hs
    rw [List.mem_filter] at hs
    obtain ⟨hmem, hlive⟩ := hs
    obtain ⟨n, hn, hgn⟩ := List.getElem_of_mem hmem
    have hoff : p.header.freeSpacePtr ≤ s.recordOffset := by
      have := hoffs n hn
      rw [List.getD_eq_getElem _ _ hn, hgn] at this
      exact this (by simpa using hlive)
    exact readBytes_copyBytes_of_le _ _ _ _ _ _ (by omega)
  have hlivenew : (fun s : RHF_Slot => decide (s.recordLength ≠ -1))
      ⟨p.header.freeSpacePtr - (bs.length : Int), (bs.length : Int)⟩ = true := by
    show decide ((bs.length : Int) ≠ -1) = true
    simp only [decide_eq_true_eq]
    omega
  have hnewread : readBytes (copyBytes p.data
      (p.header.freeSpacePtr - (bs.length : Int)) bs (bs.length : Int))
      (p.header.freeSpacePtr - (bs.length : Int)) (bs.length : Int) = bs :=
    readBytes_copyBytes_self _ _ _
  by_cases hnfs : p.header.nextFreeSlot = -1
  · -- append branch
    have key := insertIntoPage_append p bs (bs.length : Int) hnfs
    have hS : (rhf_insertIntoPage p bs (bs.length : Int)).1.slots =
        p.slots ++ [⟨p.header.freeSpacePtr - (bs.length : Int), (bs.length : Int)⟩] := by
      rw [key]
    have hD : (rhf_insertIntoPage p bs (bs.length : Int)).1.data =
        copyBytes p.data (p.header.freeSpacePtr - (bs.length : Int)) bs
          (bs.length : Int) := by
      rw [key]
    unfold liveRecs
    rw [hS, hD]
    rw [List.filter_append, List.filter_cons, if_pos hlivenew, List.filter_nil,
      List.map_append, List.map_cons, List.map_nil]
    rw [hnewread]
    rw [List.map_congr_left hreads]
    exact List.perm_append_singleton _ _
  · -- pop branch: the reused slot j was dead
    obtain ⟨j, rest, hl, hj, hjlt, hjdel, hjnm, hrest⟩ := FreeChain_head_ne hchain hnfs
    have hjto : p.header.nextFreeSlot.toNat = j := by omega
    have key := insertIntoPage_pop p bs (bs.length : Int) hnfs
    rw [hjto] at key
    have hS : (rhf_insertIntoPage p bs (bs.length : Int)).1.slots =
        p.slots.set j ⟨p.header.freeSpacePtr - (bs.length : Int), (bs.length : Int)⟩ := by
      rw [key]
    have hD : (rhf_insertIntoPage p bs (bs.length : Int)).1.data =
        copyBytes p.data (p.header.freeSpacePtr - (bs.length : Int)) bs
          (bs.length : Int) := by
      rw [key]
    unfold liveRecs
    rw [hS, hD]
    rw [set_decomp_at _ _ _ hjlt]
    have hslots := list_decomp_at p.slots j ⟨0, 0⟩ hjlt
    have hdeadold : decide ((p.slots.getD j ⟨0, 0⟩).recordLength ≠ -1) = false := by
      rw [hjdel]
      decide
    rw [List.filter_append, List.filter_cons, if_pos hlivenew, List.map_append,
      List.map_cons]
    rw [hnewread]
    have hmemtake : ∀ s ∈ (p.slots.take j).filter
        (fun s => decide (s.recordLength ≠ -1)),
        s ∈ p.slots.filter (fun s => decide (s.recordLength ≠ -1)) := by
      intro s hs
      rw [List.mem_filter] at hs ⊢
      exact ⟨List.mem_of_mem_take hs.1, hs.2⟩
    have hmemdrop : ∀ s ∈ (p.slots.drop (j + 1)).filter
        (fun s => decide (s.recordLength ≠ -1)),
        s ∈ p.slots.filter (fun s => decide (s.recordLength ≠ -1)) := by
      intro s hs
      rw [List.mem_filter] at hs ⊢
      exact ⟨List.mem_of_mem_drop hs.1, hs.2⟩
    rw [List.map_congr_left (fun s hs => hreads s (hmemtake s hs)),
      List.map_congr_left (fun s hs => hreads s (hmemdrop s hs))]
    refine List.Perm.trans (List.perm_middle ..) (List.Perm.cons _ ?_)
    have hfl : p.slots.filter (fun s => decide (s.recordLength ≠ -1)) =
        (p.slots.take j).filter (fun s => decide (s.recordLength ≠ -1)) ++
        (p.slots.drop (j + 1)).filter (fun s => decide (s.recordLength ≠ -1)) := by
      conv_lhs => rw [hslots]
      rw [List.filter_append, List.filter_cons, if_neg (by rw [hdeadold]; simp)]
    rw [hfl, List.map_append]

end DB

namespace DB

theorem fileRecs_append_cons (A : List Page) (p : Page) (B : List Page) :
    fileRecs (A ++ p :: B) = fileRecs A ++ (liveRecs p ++ fileRecs B) := by
  unfold fileRecs
  rw [List.map_append, List.map_cons, List.flatten_append, List.flatten_cons]

theorem fileRecs_snoc (A : List Page) (p : Page) :
    fileRecs (A ++ [p]) = fileRecs A ++ liveRecs p := by
  unfold fileRecs
  rw [List.map_append, List.map_cons, List.map_nil, List.flatten_append,
    List.flatten_cons, List.flatten_nil, List.append_nil]

theorem liveRecs_initPage : liveRecs (rhf_InitPage zeroPage) = [] := rfl

theorem PageInv_initPage : PageInv (rhf_InitPage zeroPage) :=
  ⟨⟨rfl, ⟨[], .nil⟩⟩, fun i hi _ => absurd hi (by simp [rhf_InitPage, zeroPage])⟩

theorem PageInv_insertIntoPage (p : Page) (bs : List Int) (hinv : PageInv p) :
    PageInv (rhf_insertIntoPage p bs (bs.length : Int)).1 := by
  obtain ⟨⟨hslen, l, hchain⟩, hoffs⟩ := hinv
  have hlen0 : (0 : Int) ≤ (bs.length : Int) := Int.natCast_nonneg _
  by_cases hnfs : p.header.nextFreeSlot = -1
  · have key := insertIntoPage_append p bs (bs.length : Int) hnfs
    have hS : (rhf_insertIntoPage p bs (bs.length : Int)).1.slots =
        p.slots ++ [⟨p.header.freeSpacePtr - (bs.length : Int), (bs.length : Int)⟩] := by
      rw [key]
    have hH : (rhf_insertIntoPage p bs (bs.length : Int)).1.header =
        ⟨p.header.numSlots + 1, p.header.freeSpacePtr - (bs.length : Int),
         p.header.nextFreeSlot⟩ := by
      rw [key]
    refine ⟨⟨?_, ⟨l, ?_⟩⟩, ?_⟩
    · rw [hS, hH]
      dsimp only
      simp only [List.length_append, List.length_singleton]
      push_cast
      omega
    · rw [hS, hH]
      dsimp only
      refine FreeChain_congr hchain (by simp) ?_
      intro k hk
      exact List.getD_append _ _ _ _ ((FreeChain_mem hchain _ hk).1)
    · rw [hS, hH]
      dsimp only
      intro i hi hlive
      simp only [List.length_append, List.length_singleton] at hi
      by_cases hip : i < p.slots.length
      · rw [List.getD_append _ _ _ _ hip] at hlive ⊢
        have := hoffs i hip hlive
        omega
      · have hieq : i = p.slots.length := by omega
        subst hieq
        rw [getD_snoc_length]
  · obtain ⟨j, rest, hl, hj, hjlt, hjdel, hjnm, hrest⟩ := FreeChain_head_ne hchain hnfs
    have hjto : p.header.nextFreeSlot.toNat = j := by omega
    have key := insertIntoPage_pop p bs (bs.length : Int) hnfs
    rw [hjto] at key
    have hS : (rhf_insertIntoPage p bs (bs.length : Int)).1.slots =
        p.slots.set j ⟨p.header.freeSpacePtr - (bs.length : Int), (bs.length : Int)⟩ := by
      rw [key]
    have hH : (rhf_insertIntoPage p bs (bs.length : Int)).1.header =
        ⟨p.header.numSlots, p.header.freeSpacePtr - (bs.length : Int),
         (p.slots.getD j ⟨0, 0⟩).recordOffset⟩ := by
      rw [key]
    refine ⟨⟨?_, ⟨rest, ?_⟩⟩, ?_⟩
    · rw [hS, hH]
      dsimp only
      simp only [List.length_set]
      exact hslen
    · rw [hS, hH]
      dsimp only
      refine FreeChain_congr hrest (by simp) ?_
      intro k hk
      exact getD_set_ne _ _ _ _ _ (fun hcon => hjnm (hcon ▸ hk))
    · rw [hS, hH]
      dsimp only
      intro i hi hlive
      simp only [List.length_set] at hi
      by_cases hij : i = j
      · subst hij
        rw [getD_set_self _ _ _ _ hjlt]
      · rw [getD_set_ne _ _ _ _ _ (Ne.symm hij)] at hlive ⊢
        have := hoffs i hi hlive
        omega

end DB

namespace DB

theorem insert_effect (pages : List Page) (bs : List Int) (hg : GInv pages) :
    GInv (RHF_InsertRecord pages bs (bs.length : Int)).pages ∧
    (fileRecs (RHF_InsertRecord pages bs (bs.length : Int)).pages).Perm
      (bs :: fileRecs pages) := by
  rcases insert_charF pages bs (bs.length : Int) with
    ⟨i, hi, -, -, -, hpgs⟩ | ⟨-, -, hpgs⟩
  · have hmem : pages.getD i zeroPage ∈ pages := by
      rw [List.getD_eq_getElem _ _ hi]
      exact List.getElem_mem hi
    have hPinv : PageInv (pages.getD i zeroPage) := hg _ hmem
    constructor
    · intro q hq
      rw [hpgs] at hq
      rcases List.mem_or_eq_of_mem_set hq with hq' | rfl
      · exact hg _ hq'
      · exact PageInv_insertIntoPage _ _ hPinv
    · rw [hpgs]
      rw [set_decomp_at _ _ _ hi]
      conv_rhs => rw [list_decomp_at pages i zeroPage hi]
      rw [fileRecs_append_cons, fileRecs_append_cons]
      refine List.Perm.trans (List.Perm.append_left _
        (List.Perm.append_right _ (liveRecs_insertIntoPage _ _ hPinv))) ?_
      exact List.perm_middle
  · constructor
    · intro q hq
      rw [hpgs] at hq
      rcases List.mem_append.mp hq with hq' | hq'
      · exact hg _ hq'
      · rw [List.mem_singleton.mp hq']
        exact PageInv_insertIntoPage _ _ PageInv_initPage
    · rw [hpgs, fileRecs_snoc]
      refine List.Perm.trans (List.Perm.append_left _
        (liveRecs_insertIntoPage _ _ PageInv_initPage)) ?_
      rw [liveRecs_initPage]
      exact List.perm_append_singleton _ _

theorem insert_rid_fresh (pages : List Page) (bs : List Int) (r : RID)
    (bytes : List Int) (hg : GInv pages) (ht : Tracked pages r bytes) :
    (RHF_InsertRecord pages bs (bs.length : Int)).rid ≠ r := by
  have hblen0 : (0 : Int) ≤ (bytes.length : Int) := Int.natCast_nonneg _
  rcases insert_charF pages bs (bs.length : Int) with
    ⟨i, hi, -, -, hrid, -⟩ | ⟨-, hrid, -⟩
  · intro hcon
    rw [hrid] at hcon
    have hpq : ((i : Nat) : Int) = r.pageNum := congrArg RID.pageNum hcon
    have hsq : (rhf_insertIntoPage (pages.getD i zeroPage) bs (bs.length : Int)).2 =
        r.slotNum := congrArg RID.slotNum hcon
    have hito : r.pageNum.toNat = i := by omega
    have hTPe : trackedPage pages r = pages.getD i zeroPage := by
      unfold trackedPage
      rw [hito]
    have hmem : pages.getD i zeroPage ∈ pages := by
      rw [List.getD_eq_getElem _ _ hi]
      exact List.getElem_mem hi
    obtain ⟨⟨hslen, l, hchain⟩, -⟩ := hg _ hmem
    by_cases hnfs : (pages.getD i zeroPage).header.nextFreeSlot = -1
    · have h2 : (rhf_insertIntoPage (pages.getD i zeroPage) bs (bs.length : Int)).2 =
          (pages.getD i zeroPage).header.numSlots := by
        rw [insertIntoPage_append _ _ _ hnfs]
      rw [h2] at hsq
      have hsn := ht.hsn
      rw [hTPe] at hsn
      omega
    · obtain ⟨j, rest, hl, hj, hjlt, hjdel, hjnm, hrest⟩ := FreeChain_head_ne hchain hnfs
      have h2 : (rhf_insertIntoPage (pages.getD i zeroPage) bs (bs.length : Int)).2 =
          (pages.getD i zeroPage).header.nextFreeSlot := by
        rw [insertIntoPage_pop _ _ _ hnfs]
      rw [h2] at hsq
      have hjr : r.slotNum.toNat = j := by omega
      have hlen := ht.hlen
      unfold trackedSlot at hlen
      rw [hTPe, hjr] at hlen
      rw [hjdel] at hlen
      omega
  · intro hcon
    rw [hrid] at hcon
    have hpq : ((pages.length : Nat) : Int) = r.pageNum := congrArg RID.pageNum hcon
    have h1 := ht.hpg
    have h2 := ht.hpg0
    omega

theorem TrackedAll_del (pages : List Page) (rid : RID) (rec : List Int)
    (ht : Tracked pages rid rec) (rids : List RID) (recs : List (List Int))
    (hall : TrackedAll pages rids recs) (hne : ∀ r' ∈ rids, rid ≠ r') :
    TrackedAll (RHF_DeleteRecord pages rid).pages rids recs := by
  replace hall : List.Forall₂ (fun r' rec' => Tracked pages r' rec') rids recs := hall
  revert hne
  induction hall with
  | nil => intro _; exact List.Forall₂.nil
  | cons hpair hrest ih =>
      rename_i r' rec' rids' recs'
      intro hne
      refine List.Forall₂.cons ?_ (ih (fun x hx => hne x (List.mem_cons_of_mem _ hx)))
      refine Tracked_del pages r' rec' rid hpair ?_
      intro hpq
      have hrne : rid ≠ r' := hne r' (List.mem_cons_self _ _)
      have hsne : rid.slotNum ≠ r'.slotNum := by
        intro hcon
        exact hrne (by cases rid; cases r'; simp_all)
      have hTPe : trackedPage pages r' = trackedPage pages rid := by
        unfold trackedPage
        rw [hpq]
      refine ⟨hsne, ht.hs0, ?_, ?_⟩
      · rw [hTPe]; exact ht.hsn
      · rw [hTPe]
        have hlen := ht.hlen
        unfold trackedSlot at hlen
        rw [hlen]
        have := Int.natCast_nonneg rec.length
        omega

end DB

namespace DB

theorem liveRecs_set_dead (P : Page) (hdr : RHF_PageHeader) (s' : RHF_Slot)
    (k : Nat) (hk : k < P.slots.length)
    (hlive : (P.slots.getD k ⟨0, 0⟩).recordLength ≠ -1)
    (hdead : s'.recordLength = -1) :
    (liveRecs P).Perm
      (readBytes P.data (P.slots.getD k ⟨0, 0⟩).recordOffset
          (P.slots.getD k ⟨0, 0⟩).recordLength ::
        liveRecs { header := hdr, slots := P.slots.set k s', data := P.data }) := by
  have hlivetrue : (fun s : RHF_Slot => decide (s.recordLength ≠ -1))
      (P.slots.getD k ⟨0, 0⟩) = true := by
    show decide ((P.slots.getD k ⟨0, 0⟩).recordLength ≠ -1) = true
    simp only [decide_eq_true_eq]
    exact hlive
  have hdeadfalse : decide (s'.recordLength ≠ -1) = false := by
    simp [hdead]
  unfold liveRecs
  dsimp only
  conv_lhs => rw [list_decomp_at P.slots k ⟨0, 0⟩ hk]
  rw [set_decomp_at _ _ _ hk]
  rw [List.filter_append, List.filter_cons, if_pos hlivetrue, List.map_append,
    List.map_cons]
  rw [List.filter_append, List.filter_cons, if_neg (by rw [hdeadfalse]; simp),
    List.map_append]
  exact List.perm_middle

theorem delete_effect (pages : List Page) (rid : RID) (bytes : List Int)
    (hg : GInv pages) (ht : Tracked pages rid bytes) :
    GInv (RHF_DeleteRecord pages rid).pages ∧
    (fileRecs pages).Perm (bytes :: fileRecs (RHF_DeleteRecord pages rid).pages) := by
  have hblen0 : (0 : Int) ≤ (bytes.length : Int) := Int.natCast_nonneg _
  have hsn := ht.hsn
  have hslen := ht.hslen
  have hs0 := ht.hs0
  have hoff0 := ht.hoff0
  have hlen' := ht.hlen
  have hbytes' := ht.hbytes
  unfold trackedPage at hsn hslen
  unfold trackedSlot trackedPage at hoff0 hlen' hbytes'
  have hpv : ¬ (rid.pageNum < 0 ∨ (pages.length : Int) ≤ rid.pageNum) := by
    have h1 := ht.hpg0
    have h2 := ht.hpg
    omega
  have hbad : ¬ (rid.slotNum < 0 ∨
      (pages.getD rid.pageNum.toNat zeroPage).header.numSlots ≤ rid.slotNum) := by
    omega
  have hoff : ¬ ((pages.getD rid.pageNum.toNat zeroPage).slots.getD
      rid.slotNum.toNat ⟨0, 0⟩).recordOffset = -1 := by
    omega
  have hset : (RHF_DeleteRecord pages rid).pages =
      pages.set rid.pageNum.toNat
        { header := { numSlots := (pages.getD rid.pageNum.toNat zeroPage).header.numSlots,
                      freeSpacePtr := (pages.getD rid.pageNum.toNat zeroPage).header.freeSpacePtr,
                      nextFreeSlot := rid.slotNum },
          slots := (pages.getD rid.pageNum.toNat zeroPage).slots.set rid.slotNum.toNat
                     ⟨(pages.getD rid.pageNum.toNat zeroPage).header.nextFreeSlot, -1⟩,
          data := (pages.getD rid.pageNum.toNat zeroPage).data } := by
    rw [RHF_DeleteRecord, if_neg hpv]
    simp only [if_neg hbad, if_neg hoff]
  have hk : rid.slotNum.toNat < (pages.getD rid.pageNum.toNat zeroPage).slots.length := by
    omega
  have hlive : ((pages.getD rid.pageNum.toNat zeroPage).slots.getD
      rid.slotNum.toNat ⟨0, 0⟩).recordLength ≠ -1 := by
    omega
  have hmemP : pages.getD rid.pageNum.toNat zeroPage ∈ pages := by
    rw [List.getD_eq_getElem _ _ ht.hpg]
    exact List.getElem_mem ht.hpg
  obtain ⟨⟨hPslen, l, hchain⟩, hPoffs⟩ := hg _ hmemP
  constructor
  · intro q hq
    rw [hset] at hq
    rcases List.mem_or_eq_of_mem_set hq with hq' | rfl
    · exact hg _ hq'
    · refine ⟨⟨?_, ⟨rid.slotNum.toNat :: l, ?_⟩⟩, ?_⟩
      · dsimp only
        simp only [List.length_set]
        exact hPslen
      · dsimp only
        have hknl : rid.slotNum.toNat ∉ l := by
          intro hin
          exact hlive ((FreeChain_mem hchain _ hin).2)
        have hc' : FreeChain ((pages.getD rid.pageNum.toNat zeroPage).slots.set
              rid.slotNum.toNat
              ⟨(pages.getD rid.pageNum.toNat zeroPage).header.nextFreeSlot, -1⟩)
            (pages.getD rid.pageNum.toNat zeroPage).header.nextFreeSlot l := by
          refine FreeChain_congr hchain (by simp) ?_
          intro j hj
          exact getD_set_ne _ _ _ _ _ (fun hcon => hknl (hcon ▸ hj))
        have hgoal : FreeChain ((pages.getD rid.pageNum.toNat zeroPage).slots.set
              rid.slotNum.toNat
              ⟨(pages.getD rid.pageNum.toNat zeroPage).header.nextFreeSlot, -1⟩)
            ((rid.slotNum.toNat : Nat) : Int) (rid.slotNum.toNat :: l) := by
          refine FreeChain.cons (by simpa using hk) ?_ hknl ?_
          · rw [getD_set_self _ _ _ _ hk]
          · rw [getD_set_self _ _ _ _ hk]
            exact hc'
        have hhead : ((rid.slotNum.toNat : Nat) : Int) = rid.slotNum := by omega
        rw [hhead] at hgoal
        exact hgoal
      · dsimp only
        intro i hi hlv
        simp only [List.length_set] at hi
        by_cases hik : i = rid.slotNum.toNat
        · subst hik
          rw [getD_set_self _ _ _ _ hk] at hlv
          exact absurd rfl hlv
        · rw [getD_set_ne _ _ _ _ _ (Ne.symm hik)] at hlv ⊢
          exact hPoffs i hi hlv
  · have hr : readBytes (pages.getD rid.pageNum.toNat zeroPage).data
        ((pages.getD rid.pageNum.toNat zeroPage).slots.getD rid.slotNum.toNat
          ⟨0, 0⟩).recordOffset
        ((pages.getD rid.pageNum.toNat zeroPage).slots.getD rid.slotNum.toNat
          ⟨0, 0⟩).recordLength = bytes := by
      rw [hlen']
      exact hbytes'
    have hstep := liveRecs_set_dead (pages.getD rid.pageNum.toNat zeroPage)
      { numSlots := (pages.getD rid.pageNum.toNat zeroPage).header.numSlots,
        freeSpacePtr := (pages.getD rid.pageNum.toNat zeroPage).header.freeSpacePtr,
        nextFreeSlot := rid.slotNum }
      ⟨(pages.getD rid.pageNum.toNat zeroPage).header.nextFreeSlot, -1⟩
      rid.slotNum.toNat hk hlive rfl
    rw [hr] at hstep
    rw [hset, set_decomp_at _ _ _ ht.hpg]
    conv_lhs => rw [list_decomp_at pages rid.pageNum.toNat zeroPage ht.hpg]
    rw [fileRecs_append_cons, fileRecs_append_cons]
    refine List.Perm.trans (List.Perm.append_left _
      (List.Perm.append_right _ hstep)) ?_
    exact List.perm_middle

end DB

namespace DB

theorem runInserts_nil (pages : List Page) : runInserts pages [] = (pages, []) := rfl

theorem runInserts_recs :
    ∀ (recs : List (List Int)) (pages : List Page), GInv pages →
      GInv (runInserts pages recs).1 ∧
      (fileRecs (runInserts pages recs).1).Perm (recs ++ fileRecs pages)
  | [], _, hg => ⟨hg, List.Perm.refl _⟩
  | bs :: rest, pages, hg => by
      obtain ⟨hg1, hp1⟩ := insert_effect pages bs hg
      obtain ⟨hgf, hpf⟩ := runInserts_recs rest
        (RHF_InsertRecord pages bs (bs.length : Int)).pages hg1
      refine ⟨hgf, ?_⟩
      refine List.Perm.trans hpf ?_
      refine List.Perm.trans (List.Perm.append_left rest hp1) ?_
      exact List.perm_middle

theorem runInserts_avoid :
    ∀ (recs : List (List Int)) (pages : List Page) (r : RID) (bytes : List Int),
      GInv pages → Tracked pages r bytes →
      Tracked (runInserts pages recs).1 r bytes ∧ r ∉ (runInserts pages recs).2
  | [], _, r, _, _, ht => ⟨ht, by simp [runInserts_nil]⟩
  | bs :: rest, pages, r, bytes, hg, ht => by
      have hne : (RHF_InsertRecord pages bs (bs.length : Int)).rid ≠ r :=
        insert_rid_fresh pages bs r bytes hg ht
      have hg1 := (insert_effect pages bs hg).1
      have ht1 := Tracked_ins pages r bytes bs ht
      obtain ⟨htf, hnm⟩ := runInserts_avoid rest
        (RHF_InsertRecord pages bs (bs.length : Int)).pages r bytes hg1 ht1
      refine ⟨htf, ?_⟩
      intro hmem
      rcases List.mem_cons.mp hmem with hq | hq
      · exact hne hq.symm
      · exact hnm hq

theorem runInserts_trackedAll :
    ∀ (recs : List (List Int)) (pages : List Page), GInv pages →
      (∀ bs ∈ recs, (bs.length : Int) + sizeofHeader + sizeofSlot ≤ PF_PAGE_SIZE) →
      TrackedAll (runInserts pages recs).1 (runInserts pages recs).2 recs ∧
      List.Pairwise (fun a b => a ≠ b) (runInserts pages recs).2
  | [], _, _, _ => ⟨List.Forall₂.nil, List.Pairwise.nil⟩
  | bs :: rest, pages, hg, hbl => by
      have hg1 := (insert_effect pages bs hg).1
      have ht0 : Tracked (RHF_InsertRecord pages bs (bs.length : Int)).pages
          (RHF_InsertRecord pages bs (bs.length : Int)).rid bs :=
        Tracked_establish pages bs (fun p hp => (hg p hp).1)
          (by have h2 := hbl bs (List.mem_cons_self _ _)
              unfold sizeofHeader sizeofSlot at h2
              omega)
      obtain ⟨htf, hnm⟩ := runInserts_avoid rest
        (RHF_InsertRecord pages bs (bs.length : Int)).pages
        (RHF_InsertRecord pages bs (bs.length : Int)).rid bs hg1 ht0
      obtain ⟨hta, hpw⟩ := runInserts_trackedAll rest
        (RHF_InsertRecord pages bs (bs.length : Int)).pages hg1
        (fun b hb => hbl b (List.mem_cons_of_mem _ hb))
      constructor
      · exact List.Forall₂.cons htf hta
      · refine List.Pairwise.cons ?_ hpw
        intro b hb hcon
        exact hnm (hcon ▸ hb)

theorem pickBy_length_le {α : Type} : ∀ (l : List α) (sel : List Bool),
    (pickBy l sel).length ≤ l.length
  | [], _ => Nat.le_refl 0
  | _ :: _, [] => Nat.zero_le _
  | a :: l, b :: sel => by
      cases b with
      | true =>
          show (a :: pickBy l sel).length ≤ (a :: l).length
          simp only [List.length_cons]
          exact Nat.succ_le_succ (pickBy_length_le l sel)
      | false =>
          show (pickBy l sel).length ≤ (a :: l).length
          simp only [List.length_cons]
          exact Nat.le_succ_of_le (pickBy_length_le l sel)

theorem runDels_spec :
    ∀ (rids : List RID) (recs : List (List Int)) (sel : List Bool)
      (pages : List Page) (rest : List (List Int)),
      GInv pages → TrackedAll pages rids recs →
      List.Pairwise (fun a b => a ≠ b) rids →
      sel.length = rids.length →
      (fileRecs pages).Perm (recs ++ rest) →
      GInv (runDels pages (pickBy rids sel)) ∧
      (fileRecs (runDels pages (pickBy rids sel))).Perm
        (pickBy recs (sel.map not) ++ rest) := by
  intro rids
  induction rids with
  | nil =>
      intro recs sel pages rest hg hall _ _ hperm
      cases hall
      exact ⟨hg, hperm⟩
  | cons rid rids' ih =>
      intro recs sel pages rest hg hall hpw hlen hperm
      cases hall with
      | cons hpair hrest =>
          rename_i rec recs'
          cases sel with
          | nil => exact absurd hlen (by simp)
          | cons b sel' =>
              cases hpw with
              | cons hhead hpw' =>
                  have hlen' : sel'.length = rids'.length := by
                    simpa using hlen
                  cases b with
                  | true =>
                      obtain ⟨hgD, hpD⟩ := delete_effect pages rid rec hg hpair
                      have hperm' : (fileRecs (RHF_DeleteRecord pages rid).pages).Perm
                          (recs' ++ rest) := by
                        have h1 : (rec :: fileRecs (RHF_DeleteRecord pages rid).pages).Perm
                            (rec :: (recs' ++ rest)) :=
                          List.Perm.trans hpD.symm hperm
                        exact h1.cons_inv
                      have hall' := TrackedAll_del pages rid rec hpair rids' recs' hrest hhead
                      exact ih recs' sel' (RHF_DeleteRecord pages rid).pages rest
                        hgD hall' hpw' hlen' hperm'
                  | false =>
                      have hperm' : (fileRecs pages).Perm (recs' ++ (rec :: rest)) := by
                        refine List.Perm.trans hperm ?_
                        exact List.perm_middle.symm
                      have hres := ih recs' sel' pages (rec :: rest) hg hrest hpw'
                        hlen' hperm'
                      refine ⟨hres.1, ?_⟩
                      refine List.Perm.trans hres.2 ?_
                      exact List.perm_middle

end DB

namespace DB

theorem drop_decomp_at {α : Type} (l : List α) (k : Nat) (d : α) (h : k < l.length) :
    l.drop k = l.getD k d :: l.drop (k + 1) := by
  rw [List.drop_eq_getElem_cons h, List.getD_eq_getElem _ _ h]

theorem scanPage_recs (p : Page)
    (hslen : ((p.slots.length : Nat) : Int) = p.header.numSlots) :
    ∀ (n : Nat) (slotIdx : Int), 0 ≤ slotIdx →
      (p.header.numSlots - slotIdx).toNat = n →
      (match rhf_scanPage p.slots p.header.numSlots slotIdx with
       | none => pageRecsFrom p slotIdx = []
       | some (i, slot) =>
           slotIdx ≤ i ∧
           slot = p.slots.getD i.toNat ⟨0, 0⟩ ∧
           pageRecsFrom p slotIdx =
             readBytes p.data slot.recordOffset slot.recordLength ::
               pageRecsFrom p (i + 1)) := by
  intro n
  induction n with
  | zero =>
      intro slotIdx h0 hn
      have hge : p.header.numSlots ≤ slotIdx := by omega
      rw [rhf_scanPage_eq, if_pos hge]
      show pageRecsFrom p slotIdx = []
      unfold pageRecsFrom
      rw [List.drop_eq_nil_of_le (by omega)]
      rfl
  | succ n ihn =>
      intro slotIdx h0 hn
      have hlt : slotIdx < p.header.numSlots := by omega
      have hsi : slotIdx.toNat < p.slots.length := by omega
      have hsucc : (slotIdx + 1).toNat = slotIdx.toNat + 1 := by omega
      rw [rhf_scanPage_eq, if_neg (by omega)]
      by_cases hlive : (p.slots.getD slotIdx.toNat ⟨0, 0⟩).recordLength ≠ -1
      · rw [if_pos hlive]
        have hlivetrue : (fun s : RHF_Slot => decide (s.recordLength ≠ -1))
            (p.slots.getD slotIdx.toNat ⟨0, 0⟩) = true := by
          show decide ((p.slots.getD slotIdx.toNat ⟨0, 0⟩).recordLength ≠ -1) = true
          simp only [decide_eq_true_eq]
          exact hlive
        refine ⟨le_refl _, rfl, ?_⟩
        unfold pageRecsFrom
        rw [drop_decomp_at _ _ ⟨0, 0⟩ hsi]
        rw [hsucc]
        rw [List.filter_cons, if_pos hlivetrue, List.map_cons]
      · rw [if_neg hlive]
        have hlf : ¬ ((fun s : RHF_Slot => decide (s.recordLength ≠ -1))
            (p.slots.getD slotIdx.toNat ⟨0, 0⟩) = true) := by
          simp only [decide_eq_true_eq]
          exact hlive
        have heq : pageRecsFrom p slotIdx = pageRecsFrom p (slotIdx + 1) := by
          unfold pageRecsFrom
          rw [drop_decomp_at _ _ ⟨0, 0⟩ hsi, hsucc, List.filter_cons, if_neg hlf]
        have ih := ihn (slotIdx + 1) (by omega) (by omega)
        rcases hsp : rhf_scanPage p.slots p.header.numSlots (slotIdx + 1) with
          _ | ⟨i, slot⟩
        · rw [hsp] at ih
          show pageRecsFrom p slotIdx = []
          rw [heq]
          exact ih
        · rw [hsp] at ih
          obtain ⟨h1, h2, h3⟩ := ih
          exact ⟨by omega, h2, by rw [heq]; exact h3⟩

theorem scanPage_recs_none (p : Page)
    (hslen : ((p.slots.length : Nat) : Int) = p.header.numSlots)
    (slotIdx : Int) (h0 : 0 ≤ slotIdx)
    (h : rhf_scanPage p.slots p.header.numSlots slotIdx = none) :
    pageRecsFrom p slotIdx = [] := by
  have hh := scanPage_recs p hslen (p.header.numSlots - slotIdx).toNat slotIdx h0 rfl
  rw [h] at hh
  exact hh

theorem scanPage_recs_some (p : Page)
    (hslen : ((p.slots.length : Nat) : Int) = p.header.numSlots)
    (slotIdx : Int) (h0 : 0 ≤ slotIdx) (i : Int) (slot : RHF_Slot)
    (h : rhf_scanPage p.slots p.header.numSlots slotIdx = some (i, slot)) :
    slotIdx ≤ i ∧ slot = p.slots.getD i.toNat ⟨0, 0⟩ ∧
    pageRecsFrom p slotIdx =
      readBytes p.data slot.recordOffset slot.recordLength ::
        pageRecsFrom p (i + 1) := by
  have hh := scanPage_recs p hslen (p.header.numSlots - slotIdx).toNat slotIdx h0 rfl
  rw [h] at hh
  exact hh

theorem pageRecsFrom_zero (p : Page) : pageRecsFrom p 0 = liveRecs p := rfl

theorem scanRecsFrom_tail (pages : List Page) (k : Nat) (hk : k < pages.length) :
    ((pages.drop k).map liveRecs).flatten = scanRecsFrom pages k 0 := by
  unfold scanRecsFrom
  rw [pageRecsFrom_zero]
  rw [drop_decomp_at _ _ zeroPage hk, List.map_cons, List.flatten_cons]

end DB

namespace DB

theorem scanLoop_recs (pages : List Page) (hg : GInv pages) :
    ∀ (n : Nat) (pageIdx : Nat) (slotIdx : Int),
      pages.length - pageIdx = n → pageIdx < pages.length → 0 ≤ slotIdx →
      (match (scanPagesLoop pages pageIdx slotIdx).out with
       | none =>
           (scanPagesLoop pages pageIdx slotIdx).status = RHF_EOF ∧
           (scanPagesLoop pages pageIdx slotIdx).scan.page_is_fixed = false ∧
           scanRecsFrom pages pageIdx slotIdx = []
       | some out =>
           (scanPagesLoop pages pageIdx slotIdx).scan.page_is_fixed = true ∧
           0 ≤ (scanPagesLoop pages pageIdx slotIdx).scan.currentPage ∧
           (scanPagesLoop pages pageIdx slotIdx).scan.currentPage <
             (pages.length : Int) ∧
           0 ≤ (scanPagesLoop pages pageIdx slotIdx).scan.currentSlot ∧
           scanRecsFrom pages pageIdx slotIdx =
             out.2.1 :: scanRecsFrom pages
               (scanPagesLoop pages pageIdx slotIdx).scan.currentPage.toNat
               (scanPagesLoop pages pageIdx slotIdx).scan.currentSlot) := by
  intro n
  induction n with
  | zero => intro pageIdx slotIdx hn hp h0; omega
  | succ n ihn =>
      intro pageIdx slotIdx hn hp h0
      have hmem : pages.getD pageIdx zeroPage ∈ pages := by
        rw [List.getD_eq_getElem _ _ hp]
        exact List.getElem_mem hp
      obtain ⟨⟨hslen, -⟩, -⟩ := hg _ hmem
      rcases hsp : rhf_scanPage (pages.getD pageIdx zeroPage).slots
          (pages.getD pageIdx zeroPage).header.numSlots slotIdx with _ | ⟨i, slot⟩
      · have hpr := scanPage_recs_none _ hslen slotIdx h0 hsp
        by_cases hnext : pageIdx + 1 < pages.length
        · rw [scanPagesLoop_eq pages pageIdx slotIdx hp, hsp]
          dsimp only
          rw [if_pos hnext]
          dsimp only
          have ih := ihn (pageIdx + 1) 0 (by omega) hnext (le_refl 0)
          have hsh : scanRecsFrom pages pageIdx slotIdx =
              scanRecsFrom pages (pageIdx + 1) 0 := by
            show pageRecsFrom (pages.getD pageIdx zeroPage) slotIdx ++
                ((pages.drop (pageIdx + 1)).map liveRecs).flatten =
              scanRecsFrom pages (pageIdx + 1) 0
            rw [hpr, List.nil_append, scanRecsFrom_tail pages (pageIdx + 1) hnext]
          rcases hout : (scanPagesLoop pages (pageIdx + 1) 0).out with _ | ⟨out⟩
          · rw [hout] at ih
            dsimp only
            exact ⟨ih.1, ih.2.1, by rw [hsh]; exact ih.2.2⟩
          · rw [hout] at ih
            dsimp only
            exact ⟨ih.1, ih.2.1, ih.2.2.1, ih.2.2.2.1, by rw [hsh]; exact ih.2.2.2.2⟩
        · rw [scanPagesLoop_eq pages pageIdx slotIdx hp, hsp]
          dsimp only
          rw [if_neg hnext]
          dsimp only
          refine ⟨rfl, rfl, ?_⟩
          show pageRecsFrom (pages.getD pageIdx zeroPage) slotIdx ++
              ((pages.drop (pageIdx + 1)).map liveRecs).flatten = []
          rw [hpr, List.drop_eq_nil_of_le (by omega), List.map_nil, List.flatten_nil]
          rfl
      · obtain ⟨hle, hseq, hpr⟩ := scanPage_recs_some _ hslen slotIdx h0 i slot hsp
        rw [scanPagesLoop_eq pages pageIdx slotIdx hp, hsp]
        dsimp only
        refine ⟨rfl, Int.natCast_nonneg _, by omega, by omega, ?_⟩
        have hto : ((pageIdx : Nat) : Int).toNat = pageIdx := Int.toNat_natCast pageIdx
        rw [hto]
        show pageRecsFrom (pages.getD pageIdx zeroPage) slotIdx ++
            ((pages.drop (pageIdx + 1)).map liveRecs).flatten =
          readBytes (pages.getD pageIdx zeroPage).data slot.recordOffset
              slot.recordLength ::
            scanRecsFrom pages pageIdx (i + 1)
        rw [hpr]
        rfl

end DB

namespace DB

theorem getNext_step (pages : List Page) (s : RHF_Scan) (hg : GInv pages)
    (hwf : ScanStateWF pages s) :
    (match (RHF_GetNextRecord pages s).out with
     | none =>
         (RHF_GetNextRecord pages s).status = RHF_EOF ∧
         scanStateRecs pages s = []
     | some out =>
         ScanStateWF pages (RHF_GetNextRecord pages s).scan ∧
         scanStateRecs pages s =
           out.2.1 :: scanStateRecs pages (RHF_GetNextRecord pages s).scan) := by
  by_cases hfix : s.page_is_fixed = true
  · obtain ⟨hcp0, hcplt, hcs0⟩ := hwf hfix
    have hplt : s.currentPage.toNat < pages.length := by omega
    have hG : RHF_GetNextRecord pages s =
        scanPagesLoop pages s.currentPage.toNat s.currentSlot := by
      unfold RHF_GetNextRecord
      rw [if_pos hfix]
    have hS : scanStateRecs pages s =
        scanRecsFrom pages s.currentPage.toNat s.currentSlot := by
      unfold scanStateRecs
      rw [if_pos hfix]
    have hL := scanLoop_recs pages hg (pages.length - s.currentPage.toNat)
      s.currentPage.toNat s.currentSlot rfl hplt hcs0
    rw [hG, hS]
    rcases hout : (scanPagesLoop pages s.currentPage.toNat s.currentSlot).out with
      _ | ⟨out⟩
    · rw [hout] at hL
      exact ⟨hL.1, hL.2.2⟩
    · rw [hout] at hL
      obtain ⟨hf, h0, hlt, hs0', hrec⟩ := hL
      have hSR : scanStateRecs pages
          (scanPagesLoop pages s.currentPage.toNat s.currentSlot).scan =
          scanRecsFrom pages
            (scanPagesLoop pages s.currentPage.toNat s.currentSlot).scan.currentPage.toNat
            (scanPagesLoop pages s.currentPage.toNat s.currentSlot).scan.currentSlot := by
        unfold scanStateRecs
        rw [if_pos hf]
      refine ⟨fun _ => ⟨h0, hlt, hs0'⟩, ?_⟩
      rw [hSR]
      exact hrec
  · rcases hnp : pfNextPage pages.length s.currentPage with _ | ⟨m⟩
    · have hG : RHF_GetNextRecord pages s = ⟨RHF_EOF, none, s, []⟩ := by
        unfold RHF_GetNextRecord
        rw [if_neg hfix, hnp]
      have hS : scanStateRecs pages s = [] := by
        unfold scanStateRecs
        rw [if_neg hfix, hnp]
      rw [hG]
      dsimp only
      exact ⟨rfl, hS⟩
    · have hmlt : m < pages.length := pfNextPage_lt _ _ _ hnp
      have hG : RHF_GetNextRecord pages s =
          ⟨(scanPagesLoop pages m 0).status, (scanPagesLoop pages m 0).out,
           (scanPagesLoop pages m 0).scan,
           .fix (m : Int) :: (scanPagesLoop pages m 0).events⟩ := by
        unfold RHF_GetNextRecord
        rw [if_neg hfix, hnp]
      have hS : scanStateRecs pages s = scanRecsFrom pages m 0 := by
        unfold scanStateRecs
        rw [if_neg hfix, hnp]
      have hL := scanLoop_recs pages hg (pages.length - m) m 0 rfl hmlt (le_refl 0)
      rw [hG, hS]
      dsimp only
      rcases hout : (scanPagesLoop pages m 0).out with _ | ⟨out⟩
      · rw [hout] at hL
        exact ⟨hL.1, hL.2.2⟩
      · rw [hout] at hL
        obtain ⟨hf, h0, hlt, hs0', hrec⟩ := hL
        have hSR : scanStateRecs pages (scanPagesLoop pages m 0).scan =
            scanRecsFrom pages (scanPagesLoop pages m 0).scan.currentPage.toNat
              (scanPagesLoop pages m 0).scan.currentSlot := by
          unfold scanStateRecs
          rw [if_pos hf]
        refine ⟨fun _ => ⟨h0, hlt, hs0'⟩, ?_⟩
        rw [hSR]
        exact hrec

theorem runScan_succ (pages : List Page) (s : RHF_Scan) (n : Nat) :
    runScan pages s (n + 1) =
      match (RHF_GetNextRecord pages s).out with
      | some (_, bytes, _) =>
          (bytes :: (runScan pages (RHF_GetNextRecord pages s).scan n).1,
           (runScan pages (RHF_GetNextRecord pages s).scan n).2)
      | none => ([], decide ((RHF_GetNextRecord pages s).status = RHF_EOF)) := rfl

theorem runScan_correct (pages : List Page) (hg : GInv pages) :
    ∀ (fuel : Nat) (s : RHF_Scan), ScanStateWF pages s →
      (scanStateRecs pages s).length < fuel →
      runScan pages s fuel = (scanStateRecs pages s, true)
  | 0, _, _, hf => absurd hf (by omega)
  | fuel + 1, s, hwf, hf => by
      have hstep := getNext_step pages s hg hwf
      rw [runScan_succ]
      rcases hout : (RHF_GetNextRecord pages s).out with _ | ⟨len, bytes, rid⟩
      · rw [hout] at hstep
        obtain ⟨hst, hrec⟩ := hstep
        dsimp only
        rw [hrec, hst]
        simp
      · rw [hout] at hstep
        obtain ⟨hwf', hrec⟩ := hstep
        have hlen' : (scanStateRecs pages (RHF_GetNextRecord pages s).scan).length <
            fuel := by
          rw [hrec] at hf
          simpa using hf
        have ih := runScan_correct pages hg fuel (RHF_GetNextRecord pages s).scan
          hwf' hlen'
        dsimp only
        rw [ih, hrec]

theorem ScanStateWF_start (pages : List Page) : ScanStateWF pages RHF_StartScan := by
  intro h
  exact absurd h (by decide)

theorem scanStateRecs_start (pages : List Page) :
    scanStateRecs pages RHF_StartScan = fileRecs pages := by
  cases pages with
  | nil => rfl
  | cons p rest =>
      have h1 : pfNextPage (p :: rest).length RHF_StartScan.currentPage = some 0 := by
        show pfNextPage (p :: rest).length (-1) = some 0
        unfold pfNextPage
        dsimp only
        rw [if_pos (show (-1 : Int) < 0 by norm_num)]
        rw [if_pos (show (0 : Int) < ((p :: rest).length : Int) by simp)]
        rfl
      have h2 : scanStateRecs (p :: rest) RHF_StartScan =
          scanRecsFrom (p :: rest) 0 0 := by
        unfold scanStateRecs
        rw [if_neg (show ¬ (RHF_StartScan.page_is_fixed = true) by decide), h1]
      rw [h2]
      show liveRecs p ++ (rest.map liveRecs).flatten = fileRecs (p :: rest)
      unfold fileRecs
      rw [List.map_cons, List.flatten_cons]

theorem fullScan_correct (pages : List Page) (hg : GInv pages) (fuel : Nat)
    (hfuel : (fileRecs pages).length < fuel) :
    fullScan pages fuel = (fileRecs pages, true) := by
  unfold fullScan
  have h1 := runScan_correct pages hg fuel RHF_StartScan (ScanStateWF_start pages)
    (by rw [scanStateRecs_start]; exact hfuel)
  rw [h1, scanStateRecs_start]

end DB

namespace DB

/-- C4: starting from an empty file, after inserting N records with
RHF_InsertRecord, a full scan (RHF_StartScan, then RHF_GetNextRecord until
it returns RHF_EOF) returns exactly the N inserted records' bytes, in some
order (a permutation); after deleting any subset of the returned RIDs
(each exactly once) with RHF_DeleteRecord, a fresh full scan returns
exactly the complement subset's bytes.  The subset is chosen by the
selector sel.  Each record fits a page: record plus page header plus one
slot within PF_PAGE_SIZE (rhf.c performs no space check after
PF_AllocPage, so a longer record's memcpy would overwrite the fresh
page's own header and slot array, outside this embedding). -/
theorem C4_insert_scan_roundtrip (recs : List (List Int)) (sel : List Bool)
    (hlen : ∀ bs ∈ recs, (bs.length : Int) + sizeofHeader + sizeofSlot ≤ PF_PAGE_SIZE)
    (hsel : sel.length = recs.length) :
    (fullScan (runInserts [] recs).1 (recs.length + 1)).1.Perm recs ∧
    (fullScan (runInserts [] recs).1 (recs.length + 1)).2 = true ∧
    (fullScan (runDels (runInserts [] recs).1 (pickBy (runInserts [] recs).2 sel))
        (recs.length + 1)).1.Perm (pickBy recs (sel.map not)) ∧
    (fullScan (runDels (runInserts [] recs).1 (pickBy (runInserts [] recs).2 sel))
        (recs.length + 1)).2 = true := by
  have hg0 : GInv ([] : List Page) := by
    intro p hp
    simp at hp
  obtain ⟨hgI, hpI⟩ := runInserts_recs recs [] hg0
  have hpI' : (fileRecs (runInserts [] recs).1).Perm recs := by
    simpa [fileRecs] using hpI
  have hlen1 : (fileRecs (runInserts [] recs).1).length < recs.length + 1 := by
    rw [hpI'.length_eq]
    omega
  have hscan1 := fullScan_correct (runInserts [] recs).1 hgI (recs.length + 1) hlen1
  obtain ⟨hTA, hPW⟩ := runInserts_trackedAll recs [] hg0 hlen
  have hselR : sel.length = (runInserts [] recs).2.length := by
    have := List.Forall₂.length_eq hTA
    omega
  have hpermIn : (fileRecs (runInserts [] recs).1).Perm (recs ++ []) := by
    simpa using hpI'
  obtain ⟨hgD, hpD⟩ := runDels_spec (runInserts [] recs).2 recs sel
    (runInserts [] recs).1 [] hgI hTA hPW hselR hpermIn
  have hpD' : (fileRecs (runDels (runInserts [] recs).1
      (pickBy (runInserts [] recs).2 sel))).Perm (pickBy recs (sel.map not)) := by
    simpa using hpD
  have hlen2 : (fileRecs (runDels (runInserts [] recs).1
      (pickBy (runInserts [] recs).2 sel))).length < recs.length + 1 := by
    rw [hpD'.length_eq]
    have h1 := pickBy_length_le recs (sel.map not)
    omega
  have hscan2 := fullScan_correct _ hgD (recs.length + 1) hlen2
  refine ⟨?_, ?_, ?_, ?_⟩
  · rw [hscan1]; exact hpI'
  · rw [hscan1]
  · rw [hscan2]; exact hpD'
  · rw [hscan2]

/-- Witness for C4: insert [1,2] and [3] into an empty file; a full scan
returns both records; after deleting the first RID, a fresh full scan
returns exactly the second record. -/
theorem C4_insert_scan_roundtrip_witness :
    (fullScan (runInserts [] [[1, 2], [3]]).1 3).1.Perm [[1, 2], [3]] ∧
    (fullScan (runInserts [] [[1, 2], [3]]).1 3).2 = true ∧
    (fullScan (runDels (runInserts [] [[1, 2], [3]]).1
        (pickBy (runInserts [] [[1, 2], [3]]).2 [true, false])) 3).1.Perm
      (pickBy [[1, 2], [3]] ([true, false].map not)) ∧
    (fullScan (runDels (runInserts [] [[1, 2], [3]]).1
        (pickBy (runInserts [] [[1, 2], [3]]).2 [true, false])) 3).2 = true :=
  C4_insert_scan_roundtrip [[1, 2], [3]] [true, false] (by decide) (by decide)

end DB
